import Mathlib

/-!
Heart Of Darkness engine: the SDL system stub (`systemstub_sdl.cpp`)

A shallow embedding of the compositing, palette, presentation and audio-pull
code of `System_SDL`, followed by theorems about it.

Conventions of the embedding

* A `uint8_t` is a `Byte` (`Fin 256`); storing an `int` into a `uint8_t` keeps
  its low 8 bits (`toByte`).
* An `int` is an `Int` in the range of 32 bits.  The sums `x + w` and `y + h`
  that the asserts of `copyRect` and `fillRect` compare are `int` sums: when
  one leaves the range it wraps around modulo `2 ^ 32` (`wrapInt`), as it does
  on the machine.  The other `int` arithmetic is exact.
* An `int` passed where a `size_t` is expected (the length of `memset`,
  `memcpy`, `memmove`) is converted modulo `2 ^ 64` (`toSizeT`).
* A block of memory owned by the program (`malloc`ed offscreen buffer, the
  pixels of an SDL surface, the audio device buffer) is a `Mem`: a size and the
  byte stored at each address, addresses counted from the start of the block.
  A pointer into a block is the `Int` offset it points at.  A write or read that
  leaves the block is a memory fault: the operation stops with
  `Status.fault` and the memory as it was when the fault happened.
* A `const uint8_t *` handed in by the caller (`buf` of `copyRect`, `pal` of
  `setPalette`) is the function giving the byte at each offset from the pointer.
* `assert(c)` stops the operation with `Status.assertFailed` when `c` is false.
* A `for (int i = 0; i < n; ++i)` loop whose body changes neither `i` nor `n`
  is a recursion on the number `n.toNat` of iterations still to run.
* An array member of the stub (`_pal`, `_keyMappings`, `_gammaLut`) is the
  function giving the element at each index.
* A `float` or `double` is a `Float`, with the operations of the C library
  (`pow`, `round`).
-/

namespace Hode

/-- A `uint8_t`. -/
abbrev Byte := Fin 256

/-- Conversion of a non-negative `int` to `uint8_t`: the low 8 bits. -/
def toByte (n : Nat) : Byte := ⟨n % 256, Nat.mod_lt n (by decide)⟩

/-- One more than the largest `size_t`. -/
def sizeMod : Nat := 2 ^ 64

/-- Conversion of an `int` to `size_t`. -/
def toSizeT (n : Int) : Nat := (n % (sizeMod : Int)).toNat

/-- The value of an `int` expression whose exact value is `n`: the 32-bit
two's complement number congruent to `n` modulo `2 ^ 32`. -/
def wrapInt (n : Int) : Int := (n + 2 ^ 31) % 2 ^ 32 - 2 ^ 31

/-- How an operation ended. -/
inductive Status where
  | ok
  | assertFailed
  | fault
  deriving DecidableEq

/-- A block of memory: `size` bytes, at addresses `0 .. size - 1`. -/
structure Mem where
  size : Nat
  data : Int → Byte

/-- The C library `memset(dst + d, c, n)` on the block `dst`. -/
def memset (dst : Mem) (d : Int) (c : Byte) (n : Nat) : Option Mem :=
  if 0 ≤ d ∧ d + n ≤ dst.size then
    some { dst with data := fun a => if d ≤ a ∧ a < d + n then c else dst.data a }
  else none

/-- The C library `memcpy(dst + d, src, n)`, the source being caller memory. -/
def memcpy (dst : Mem) (d : Int) (src : Int → Byte) (n : Nat) : Option Mem :=
  if 0 ≤ d ∧ d + n ≤ dst.size then
    some { dst with data := fun a => if d ≤ a ∧ a < d + n then src (a - d) else dst.data a }
  else none

/-- The C library `memmove(dst + d, src + sa, n)` between two distinct blocks. -/
def memmove (dst : Mem) (d : Int) (src : Mem) (sa : Int) (n : Nat) : Option Mem :=
  if 0 ≤ d ∧ d + n ≤ dst.size ∧ 0 ≤ sa ∧ sa + n ≤ src.size then
    some { dst with data := fun a => if d ≤ a ∧ a < d + n then src.data (sa + (a - d)) else dst.data a }
  else none

/-- The `SDL_Color` of SDL 1.2 (its `unused` byte left out). -/
structure SDL_Color where
  r : Byte
  g : Byte
  b : Byte
  deriving DecidableEq

/-- The part of an 8-bit `SDL_Surface` the stub touches: `pitch`, `pixels` and
the colors of its palette. -/
structure SDL_Surface where
  pitch : Nat
  pixels : Mem
  colors : Int → SDL_Color

/-- Source `struct KeyMapping`. -/
structure KeyMapping where
  keyCode : Int
  mask : Int

/-- Modelled from the spec: the `AudioCallback` type of `system.h`, which is not
part of the sources at hand; "an opaque (function pointer, user context) pair",
where "no callback" is the null function pointer.  A registered function is
given the user context, the sample buffer and the sample count, and returns the
buffer as it leaves it. -/
structure AudioCallback where
  proc : Option (Int → Mem → Int → Mem)
  userdata : Int

/-- Modelled from the spec: the `PlayerInput` type of `system.h`, which is not
part of the sources at hand; the input state `(mask, prevMask)`, "unsigned
bitmasks", and the quit flag.  The masks are bytes, like the `uint8_t mask`
that `addKeyMapping` takes. -/
structure PlayerInput where
  prevMask : Byte
  mask : Byte
  quit : Bool

/-- Source `struct System_SDL`.  `_offscreen` is the offset of the pointer
`_offscreen` in the block `_offscreenBase`; `_pal`, `_keyMappings` and
`_gammaLut` give the array element at each index. -/
structure System_SDL where
  _offscreenBase : Mem
  _offscreen : Int
  _screen : SDL_Surface
  _pal : Int → SDL_Color
  _screenW : Int
  _screenH : Int
  _shakeDx : Int
  _shakeDy : Int
  _keyMappings : Int → KeyMapping
  _keyMappingsCount : Int
  _scaler : Int
  _audioCb : AudioCallback
  _gammaLut : Int → Byte
  inp : PlayerInput

/-- Source `kKeyMappingsSize`. -/
def kKeyMappingsSize : Int := 20

/-- The size `init` gives the offscreen allocation:
`const int offscreenSize = (w + 2) * (h + 2)`. -/
def offscreenSize (w h : Int) : Int := (w + 2) * (h + 2)

/-- What `init` establishes about the offscreen buffer of a `w` by `h` screen
(lines 88-98): the screen size is stored, the block has `offscreenSize` bytes
and `_offscreen = _offscreenBase + (w + 2) + 1`.  The sizes are those of a real
screen: non-negative `int`s. -/
def System_SDL.wf (s : System_SDL) : Prop :=
  0 ≤ s._screenW ∧ s._screenW < 2 ^ 31 ∧ 0 ≤ s._screenH ∧ s._screenH < 2 ^ 31 ∧
  (s._offscreenBase.size : Int) = offscreenSize s._screenW s._screenH ∧
  s._offscreen = (s._screenW + 2) + 1

instance (s : System_SDL) : Decidable s.wf := by
  unfold System_SDL.wf; infer_instance

/-- What `prepareScaledGfx` establishes about `_screen` once
`SDL_CreateRGBSurface(.., _screenW, _screenH, 8, ..)` has returned a surface of
pitch `_screenW`: its pixel block has `pitch * _screenH` bytes. -/
def System_SDL.screenWf (s : System_SDL) : Prop :=
  (s._screen.pitch : Int) = s._screenW ∧
  (s._screen.pixels.size : Int) = s._screenW * s._screenH

instance (s : System_SDL) : Decidable s.screenWf := by
  unfold System_SDL.screenWf; infer_instance

/-- The usable-window pixel at column `px`, row `py`: the byte
`_offscreen[py * _screenW + px]`. -/
def System_SDL.offscreenPixel (s : System_SDL) (px py : Int) : Byte :=
  s._offscreenBase.data (s._offscreen + py * s._screenW + px)

/-- The destination pixel at column `px`, row `py` of the 8-bit surface
`_screen`: the byte `pixels[py * pitch + px]`. -/
def System_SDL.screenPixel (s : System_SDL) (px py : Int) : Byte :=
  s._screen.pixels.data (py * s._screen.pitch + px)

/-! ## Palette -/

/-- The body of the `setPalette` loop for one channel, lines 119-123 and the
store into the `Uint8` field: `if (shift != 0) r = (r << shift) | (r >> depth)`,
then `_pal[i].r = r`. -/
def expandChannel (v : Byte) (shift depth : Int) : Byte :=
  let r : Nat := v.val
  let r := if shift ≠ 0 then (r <<< shift.toNat) ||| (r >>> depth.toNat) else r
  toByte r

/-- The `for` loop of `setPalette`, `k` iterations to run, at index `i`.
A negative `depth` makes `r >> depth` a shift by a negative count, which has
no defined result: a fault. -/
def setPaletteLoop (pal : Int → Byte) (shift depth : Int) :
    Nat → Int → (Int → SDL_Color) → Status × (Int → SDL_Color)
  | 0, _, p => (Status.ok, p)
  | k + 1, i, p =>
    if shift ≠ 0 ∧ depth < 0 then (Status.fault, p)
    else
      let c : SDL_Color :=
        { r := expandChannel (pal (i * 3 + 0)) shift depth
          g := expandChannel (pal (i * 3 + 1)) shift depth
          b := expandChannel (pal (i * 3 + 2)) shift depth }
      setPaletteLoop pal shift depth k (i + 1) (fun j => if j = i then c else p j)

/-- Source `System_SDL::setPalette`.  `SDL_SetColors(_screen, _pal, 0, 256)`
copies the 256 entries of `_pal` into the palette of `_screen`. -/
def setPalette (s : System_SDL) (pal : Int → Byte) (n depth : Int) : Status × System_SDL :=
  if ¬ n ≤ 256 then (Status.assertFailed, s)
  else if ¬ depth ≤ 8 then (Status.assertFailed, s)
  else
    let shift := 8 - depth
    let r := setPaletteLoop pal shift depth n.toNat 0 s._pal
    match r.1 with
    | Status.ok =>
      (Status.ok, { s with
        _pal := r.2
        _screen := { s._screen with
          colors := fun j => if 0 ≤ j ∧ j < 256 then r.2 j else s._screen.colors j } })
    | st => (st, { s with _pal := r.2 })

/-! ## Rect compositor -/

/-- The `for` loop of `copyRect`, `k` iterations to run, at row `y`, the source
pointer `buf` advanced by `b` bytes so far. -/
def copyRectLoop (s : System_SDL) (x w : Int) (buf : Int → Byte) (pitch : Int) :
    Nat → Int → Int → Mem → Status × Mem
  | 0, _, _, m => (Status.ok, m)
  | k + 1, y, b, m =>
    match memcpy m (s._offscreen + y * s._screenW + x) (fun i => buf (b + i)) (toSizeT w) with
    | none => (Status.fault, m)
    | some m' => copyRectLoop s x w buf pitch k (y + 1) (b + pitch) m'

/-- Source `System_SDL::copyRect`.  The sums of the assert are `int` sums. -/
def copyRect (s : System_SDL) (x y w h : Int) (buf : Int → Byte) (pitch : Int) :
    Status × System_SDL :=
  if x ≥ 0 ∧ wrapInt (x + w) ≤ s._screenW ∧ y ≥ 0 ∧ wrapInt (y + h) ≤ s._screenH then
    let r := copyRectLoop s x w buf pitch h.toNat y 0 s._offscreenBase
    (r.1, { s with _offscreenBase := r.2 })
  else (Status.assertFailed, s)

/-- The `for` loop of `fillRect`, `k` iterations to run, at row `y`. -/
def fillRectLoop (s : System_SDL) (x w : Int) (color : Byte) :
    Nat → Int → Mem → Status × Mem
  | 0, _, m => (Status.ok, m)
  | k + 1, y, m =>
    match memset m (s._offscreen + y * s._screenW + x) color (toSizeT w) with
    | none => (Status.fault, m)
    | some m' => fillRectLoop s x w color k (y + 1) m'

/-- Source `System_SDL::fillRect`.  The sums of the assert are `int` sums. -/
def fillRect (s : System_SDL) (x y w h : Int) (color : Byte) : Status × System_SDL :=
  if x ≥ 0 ∧ wrapInt (x + w) ≤ s._screenW ∧ y ≥ 0 ∧ wrapInt (y + h) ≤ s._screenH then
    let r := fillRectLoop s x w color h.toNat y s._offscreenBase
    (r.1, { s with _offscreenBase := r.2 })
  else (Status.assertFailed, s)

/-! ## Presentation -/

/-- Source `System_SDL::shakeScreen`. -/
def shakeScreen (s : System_SDL) (dx dy : Int) : System_SDL :=
  { s with _shakeDx := dx, _shakeDy := dy }

/-- The `for` loop of `clearScreen`, `k` iterations to run.  `p` is a
`uint16_t *` into the pixel block, counted in 16-bit units: it points at byte
`2 * p`, and `p += dstPitch` moves it by `2 * dstPitch` bytes.  The length
`w * sizeof(uint16_t) * 1` is computed in `size_t`. -/
def clearScreenLoop (dstPitch w : Int) : Nat → Int → Mem → Status × Mem
  | 0, _, m => (Status.ok, m)
  | k + 1, p, m =>
    match memset m (2 * p) 0 (toSizeT w * 2 * 1 % sizeMod) with
    | none => (Status.fault, m)
    | some m' => clearScreenLoop dstPitch w k (p + dstPitch) m'

/-- Source `clearScreen`; `dst` is a `uint16_t *` into `pixels`, in 16-bit
units. -/
def clearScreen (pixels : Mem) (dst dstPitch x y w h : Int) : Status × Mem :=
  let p := dst + (y * dstPitch + x) * 1
  clearScreenLoop dstPitch w (h * 1).toNat p pixels

/-- The local variables of `updateScreen` that the shake handling changes,
with the pixel block of `_screen`.  `dst` is a `uint16_t *` in 16-bit units,
`src` a `const uint8_t *` into the offscreen block. -/
structure Blit where
  pixels : Mem
  dst : Int
  src : Int
  w : Int
  h : Int

/-- Lines 186-194 of `updateScreen`: the vertical shake. -/
def shakeVertical (s : System_SDL) (dstPitch srcPitch : Int) (v : Blit) : Status × Blit :=
  if s._shakeDy > 0 then
    let r := clearScreen v.pixels v.dst dstPitch 0 0 v.w s._shakeDy
    (r.1, { v with pixels := r.2, h := v.h - s._shakeDy, dst := v.dst + s._shakeDy * dstPitch })
  else if s._shakeDy < 0 then
    let r := clearScreen v.pixels v.dst dstPitch 0 0 v.w s._shakeDy
    (r.1, { v with pixels := r.2, h := v.h + s._shakeDy, src := v.src - s._shakeDy * srcPitch })
  else (Status.ok, v)

/-- Lines 195-203 of `updateScreen`: the horizontal shake. -/
def shakeHorizontal (s : System_SDL) (dstPitch : Int) (v : Blit) : Status × Blit :=
  if s._shakeDx > 0 then
    let r := clearScreen v.pixels v.dst dstPitch 0 0 s._shakeDx v.h
    (r.1, { v with pixels := r.2, w := v.w - s._shakeDx, dst := v.dst + s._shakeDx })
  else if s._shakeDx < 0 then
    let r := clearScreen v.pixels v.dst dstPitch v.w 0 (-s._shakeDx) v.h
    (r.1, { v with pixels := r.2, w := v.w + s._shakeDx, src := v.src - s._shakeDx })
  else (Status.ok, v)

/-- Source `System_SDL::updateScreen`.  The surface locking and the transfer of
`_screen` to the display (`SDL_BlitSurface`, `SDL_Flip`) change nothing of the
state modelled here.  A fault stops the function where it happens. -/
def updateScreen (s : System_SDL) (_drawWidescreen : Bool) : Status × System_SDL :=
  let dstPitch : Int := ((s._screen.pitch / 2 : Nat) : Int)
  let srcPitch : Int := s._screenW
  let v0 : Blit :=
    { pixels := s._screen.pixels, dst := 0, src := s._offscreen, w := s._screenW, h := s._screenH }
  match shakeVertical s dstPitch srcPitch v0 with
  | (Status.ok, v1) =>
    match shakeHorizontal s dstPitch v1 with
    | (Status.ok, v2) =>
      let colors : Int → SDL_Color :=
        fun j => if 0 ≤ j ∧ j < 256 then s._pal j else s._screen.colors j
      match memmove v2.pixels (2 * v2.dst) s._offscreenBase v2.src (toSizeT ((v2.w * v2.h) * 1)) with
      | some px =>
        (Status.ok, { s with
          _screen := { s._screen with pixels := px, colors := colors }
          _shakeDx := 0
          _shakeDy := 0 })
      | none =>
        (Status.fault, { s with _screen := { s._screen with pixels := v2.pixels, colors := colors } })
    | (st, v2) => (st, { s with _screen := { s._screen with pixels := v2.pixels } })
  | (st, v1) => (st, { s with _screen := { s._screen with pixels := v1.pixels } })

/-! ## Audio bridge -/

/-- Source `mixAudioS16`, the pull handler: `param` is the stub, `buf` the
device buffer, `len` its length in bytes.  The call
`stub->_audioCb.proc(..)` through a null function pointer is a fault. -/
def mixAudioS16 (param : System_SDL) (buf : Mem) (len : Int) : Status × Mem :=
  match memset buf 0 0 (toSizeT len) with
  | none => (Status.fault, buf)
  | some b =>
    match param._audioCb.proc with
    | none => (Status.fault, b)
    | some proc => (Status.ok, proc param._audioCb.userdata b (Int.tdiv len 2))

/-- Source `System_SDL::setAudioCallback` (the audio lock changes nothing of
the state modelled here): stores `callback`, returns the previous one. -/
def setAudioCallback (s : System_SDL) (callback : AudioCallback) : AudioCallback × System_SDL :=
  (s._audioCb, { s with _audioCb := callback })

/-! ## Gamma -/

/-- One entry of the gamma table, line 161:
`(uint8_t)round(pow(i / 255., 1. / gamma) * 255)`, computed in double
precision. -/
def gammaEntry (gamma : Float) (i : Int) : Byte :=
  toByte (Float.round (Float.pow (Float.ofInt i / 255.0) (1.0 / gamma) * 255.0)).toUInt8.toNat

/-- The `for` loop of `setGamma`, `k` iterations to run, at index `i`. -/
def setGammaLoop (gamma : Float) : Nat → Int → (Int → Byte) → (Int → Byte)
  | 0, _, lut => lut
  | k + 1, i, lut =>
    setGammaLoop gamma k (i + 1) (fun j => if j = i then gammaEntry gamma i else lut j)

/-- Source `System_SDL::setGamma`. -/
def setGamma (s : System_SDL) (gamma : Float) : System_SDL :=
  { s with _gammaLut := setGammaLoop gamma 256 0 s._gammaLut }

/-! ## Input mapper -/

/-- Conversion of an `int` to `uint8_t`: the low 8 bits. -/
def intToByte (n : Int) : Byte := ⟨(n % 256).toNat, by omega⟩

/-- The `for` loop of `addKeyMapping`, `k` iterations to run, at index `i`:
`some` table when the loop returns from the function, having overwritten the
mask of the entry whose key is `key`; `none` when the loop ends without
finding the key. -/
def addKeyMappingLoop (key : Int) (mask : Byte) :
    Nat → Int → (Int → KeyMapping) → Option (Int → KeyMapping)
  | 0, _, _ => none
  | k + 1, i, t =>
    if (t i).keyCode = key then
      some (fun j => if j = i then { t i with mask := (mask.val : Int) } else t j)
    else addKeyMappingLoop key mask k (i + 1) t

/-- Source `System_SDL::addKeyMapping`. -/
def addKeyMapping (s : System_SDL) (key : Int) (mask : Byte) : System_SDL :=
  if s._keyMappingsCount < kKeyMappingsSize then
    match addKeyMappingLoop key mask s._keyMappingsCount.toNat 0 s._keyMappings with
    | some t => { s with _keyMappings := t }
    | none =>
      if s._keyMappingsCount < kKeyMappingsSize then
        { s with
          _keyMappings := fun j =>
            if j = s._keyMappingsCount then { keyCode := key, mask := (mask.val : Int) }
            else s._keyMappings j
          _keyMappingsCount := s._keyMappingsCount + 1 }
      else s
  else s

/-- The invariant of the key table: the count is within the capacity and the
key codes of the first `_keyMappingsCount` entries are pairwise distinct. -/
def System_SDL.keysOk (s : System_SDL) : Prop :=
  0 ≤ s._keyMappingsCount ∧ s._keyMappingsCount ≤ kKeyMappingsSize ∧
  ∀ i j, 0 ≤ i → i < s._keyMappingsCount → 0 ≤ j → j < s._keyMappingsCount →
    (s._keyMappings i).keyCode = (s._keyMappings j).keyCode → i = j

/-- Lines 321-322 of `setupDefaultKeyMappings`: the reset of the table,
`_keyMappingsCount = 0` and the `memset` of `_keyMappings` to zero. -/
def resetKeyMappings (s : System_SDL) : System_SDL :=
  { s with _keyMappingsCount := 0, _keyMappings := fun _ => { keyCode := 0, mask := 0 } }

/-- A sequence of `addKeyMapping` calls, each a `(key, mask)` pair, in order. -/
def addKeyMappings (s : System_SDL) (calls : List (Int × Byte)) : System_SDL :=
  calls.foldl (fun t c => addKeyMapping t c.1 c.2) s

/-- Source `System_SDL::setupDefaultKeyMappings`: the reset, then the eight
registrations.  The `SDLK_` key codes and `SYS_INP_` masks come from headers
that are not part of the sources at hand: `defaults` is the list of the
`(key, mask)` pairs in the order of lines 326-335. -/
def setupDefaultKeyMappings (s : System_SDL) (defaults : List (Int × Byte)) : System_SDL :=
  addKeyMappings (resetKeyMappings s) defaults

/-- The `for` loop of `updateKeys`, `k` iterations to run, at index `i`, on the
value of `inp->mask`.  `keyState` is the array `SDL_GetKeyState` returns; the
mask of the mapping is an `int`, the result of `|` and `& ~` is stored back
into the `uint8_t`. -/
def updateKeysLoop (keyMappings : Int → KeyMapping) (keyState : Int → Byte) :
    Nat → Int → Byte → Byte
  | 0, _, mask => mask
  | k + 1, i, mask =>
    if keyState (keyMappings i).keyCode ≠ 0 then
      updateKeysLoop keyMappings keyState k (i + 1)
        (intToByte (Int.lor (mask.val : Int) (keyMappings i).mask))
    else
      updateKeysLoop keyMappings keyState k (i + 1)
        (intToByte (Int.land (mask.val : Int) (Int.lnot (keyMappings i).mask)))

/-- Source `System_SDL::updateKeys`; `inp` is the `PlayerInput` pointed at,
`keyState` the key-state array of SDL. -/
def updateKeys (s : System_SDL) (inp : PlayerInput) (keyState : Int → Byte) : PlayerInput :=
  { inp with
    prevMask := inp.mask
    mask := updateKeysLoop s._keyMappings keyState s._keyMappingsCount.toNat 0 inp.mask }

/-- A sequence of `updateKeys` calls, one per key-state snapshot, in order. -/
def updateKeysSeq (s : System_SDL) (inp : PlayerInput) (snapshots : List (Int → Byte)) :
    PlayerInput :=
  snapshots.foldl (fun p ks => updateKeys s p ks) inp

/-! ## Concrete states -/

/-- A stub for a `w` by `h` screen: the offscreen block and the pointer into it
laid out as `init` does, a surface of pitch `w` with `w * h` bytes, every
offscreen byte holding `fill a` and every surface byte `stale`; no shake
pending, no key mapping, no audio callback. -/
def demoSystem (w h : Nat) (fill : Int → Byte) (stale : Byte) : System_SDL :=
  { _offscreenBase := { size := (w + 2) * (h + 2), data := fill }
    _offscreen := (w + 2) + 1
    _screen := { pitch := w, pixels := { size := w * h, data := fun _ => stale },
                 colors := fun _ => { r := 0, g := 0, b := 0 } }
    _pal := fun _ => { r := 0, g := 0, b := 0 }
    _screenW := w
    _screenH := h
    _shakeDx := 0
    _shakeDy := 0
    _keyMappings := fun _ => { keyCode := 0, mask := 0 }
    _keyMappingsCount := 0
    _scaler := 1
    _audioCb := { proc := none, userdata := 0 }
    _gammaLut := fun _ => 0
    inp := { prevMask := 0, mask := 0, quit := false } }

/-- A source buffer whose byte at offset `i` is `i + 1` (low 8 bits). -/
def rampBuf : Int → Byte := fun i => toByte (i.toNat + 1)

/-- A stub with a registered audio callback that writes no sample. -/
def quietSystem : System_SDL :=
  { demoSystem 4 2 rampBuf 9 with _audioCb := { proc := some (fun _ b _ => b), userdata := 0 } }

/-- A 4-byte audio device buffer holding 3 in every byte. -/
def demoAudioBuf : Mem := { size := 4, data := fun _ => 3 }

/-- A table filled to its capacity: the keys `0 .. 19`, each with mask 1,
registered on the reset table. -/
def fullKeyTable : System_SDL :=
  addKeyMappings (resetKeyMappings (demoSystem 4 2 rampBuf 9))
    ((List.range 20).map fun i => ((i : Int), (1 : Byte)))

/-- A table of two mappings that share the action bit 0: key 1 and key 2, both
with mask 1. -/
def sharedBitTable : System_SDL :=
  addKeyMappings (resetKeyMappings (demoSystem 4 2 rampBuf 9)) [(1, 1), (2, 1)]

/-- A key-state snapshot in which key 1 is held and no other key is. -/
def key1Held : Int → Byte := fun k => if k = 1 then 1 else 0



/-! ## Auxiliary facts -/

theorem toSizeT_eq (n : Int) (h0 : 0 ≤ n) (h1 : n < 2 ^ 64) : (toSizeT n : Int) = n := by
  unfold toSizeT sizeMod
  have h2 : n % ((2 ^ 64 : Nat) : Int) = n := Int.emod_eq_of_lt h0 (by norm_num; exact h1)
  rw [h2]
  exact Int.toNat_of_nonneg h0

theorem wrapInt_eq (n : Int) (h0 : -2 ^ 31 ≤ n) (h1 : n < 2 ^ 31) : wrapInt n = n := by
  unfold wrapInt
  omega

theorem offscreenSize_expand (w h : Int) : offscreenSize w h = h * w + 2 * w + 2 * h + 4 := by
  unfold offscreenSize; ring

/-- The rows written by the loop of `copyRect`: the loop ends normally, keeps
the size of the block, stores the source rows and changes no other byte. -/
theorem copyRectLoop_spec (s : System_SDL) (x w : Int) (buf : Int → Byte) (pitch : Int)
    (hW : 0 ≤ s._screenW) (hW31 : s._screenW < 2 ^ 31) (hx : 0 ≤ x) (hw : 0 ≤ w)
    (hxw : x + w ≤ s._screenW) (hoff : s._offscreen = (s._screenW + 2) + 1) :
    ∀ (k : Nat) (y b : Int) (m : Mem), 0 ≤ y → y + k ≤ s._screenH →
      (m.size : Int) = offscreenSize s._screenW s._screenH →
      (copyRectLoop s x w buf pitch k y b m).1 = Status.ok ∧
      (copyRectLoop s x w buf pitch k y b m).2.size = m.size ∧
      (∀ r i, y ≤ r → r < y + k → 0 ≤ i → i < w →
        (copyRectLoop s x w buf pitch k y b m).2.data (s._offscreen + r * s._screenW + x + i)
          = buf (b + (r - y) * pitch + i)) ∧
      (∀ a, (∀ r, y ≤ r → r < y + k →
          ¬ (s._offscreen + r * s._screenW + x ≤ a ∧ a < s._offscreen + r * s._screenW + x + w)) →
        (copyRectLoop s x w buf pitch k y b m).2.data a = m.data a) := by
  intro k
  induction k with
  | zero =>
    intro y b m _ _ _
    refine ⟨rfl, rfl, ?_, ?_⟩
    · intro r i h1 h2; omega
    · intro a _; rfl
  | succ k ih =>
    intro y b m hy hyk hsz
    have hsw : (toSizeT w : Int) = w := toSizeT_eq w hw (by omega)
    have hyW : 0 ≤ y * s._screenW := mul_nonneg hy hW
    have hyH : (y + 1) * s._screenW ≤ s._screenH * s._screenW :=
      mul_le_mul_of_nonneg_right (by omega) hW
    have hy1 : (y + 1) * s._screenW = y * s._screenW + s._screenW := by ring
    have hH : 0 ≤ s._screenH := by omega
    have hexp := offscreenSize_expand s._screenW s._screenH
    have hin : 0 ≤ s._offscreen + y * s._screenW + x ∧
        s._offscreen + y * s._screenW + x + (toSizeT w : Int) ≤ (m.size : Int) := by
      constructor <;> omega
    have hstep : copyRectLoop s x w buf pitch (k + 1) y b m =
        copyRectLoop s x w buf pitch k (y + 1) (b + pitch)
          { m with data := fun a =>
              if s._offscreen + y * s._screenW + x ≤ a ∧
                  a < s._offscreen + y * s._screenW + x + (toSizeT w : Int)
              then buf (b + (a - (s._offscreen + y * s._screenW + x))) else m.data a } := by
      simp only [copyRectLoop, memcpy, if_pos hin]
    rw [hstep]
    obtain ⟨i1, i2, i3, i4⟩ := ih (y + 1) (b + pitch)
      { m with data := fun a =>
          if s._offscreen + y * s._screenW + x ≤ a ∧
              a < s._offscreen + y * s._screenW + x + (toSizeT w : Int)
          then buf (b + (a - (s._offscreen + y * s._screenW + x))) else m.data a }
      (by omega) (by push_cast at hyk; omega) hsz
    refine ⟨i1, i2, ?_, ?_⟩
    · intro r i hr1 hr2 hi0 hiw
      by_cases hry : r = y
      · subst hry
        rw [i4]
        · have hc : s._offscreen + r * s._screenW + x ≤ s._offscreen + r * s._screenW + x + i ∧
              s._offscreen + r * s._screenW + x + i
                < s._offscreen + r * s._screenW + x + (toSizeT w : Int) := by
            constructor <;> omega
          simp only [if_pos hc]
          congr 1
          ring
        · intro r' hr'1 _ hcon
          have := mul_le_mul_of_nonneg_right hr'1 hW
          omega
      · rw [i3 r i (by omega) (by push_cast at hr2 ⊢; omega) hi0 hiw]
        congr 1
        ring
    · intro a ha
      rw [i4 a (fun r hr1 hr2 => ha r (by omega) (by push_cast at hr2 ⊢; omega))]
      have hn := ha y (le_refl y) (by push_cast; omega)
      have hc : ¬ (s._offscreen + y * s._screenW + x ≤ a ∧
          a < s._offscreen + y * s._screenW + x + (toSizeT w : Int)) := by
        rw [hsw]; exact hn
      simp only [if_neg hc]

/-- The loop of `fillRect` is the loop of `copyRect` reading a source that holds
`color` everywhere, with any stride. -/
theorem fillRectLoop_eq_copyRectLoop (s : System_SDL) (x w : Int) (color : Byte) :
    ∀ (k : Nat) (y b : Int) (m : Mem),
      fillRectLoop s x w color k y m = copyRectLoop s x w (fun _ => color) 0 k y b m := by
  intro k
  induction k with
  | zero => intro y b m; rfl
  | succ k ih =>
    intro y b m
    simp only [fillRectLoop, copyRectLoop, memset, memcpy]
    split_ifs with hc
    · exact ih (y + 1) (b + 0) _
    · rfl

theorem copyRectLoop_not_assert (s : System_SDL) (x w : Int) (buf : Int → Byte) (pitch : Int) :
    ∀ (k : Nat) (y b : Int) (m : Mem),
      (copyRectLoop s x w buf pitch k y b m).1 ≠ Status.assertFailed := by
  intro k
  induction k with
  | zero => intro y b m; simp [copyRectLoop]
  | succ k ih =>
    intro y b m
    simp only [copyRectLoop]
    split
    · simp
    · exact ih _ _ _

/-! ## Rect compositor -/

/-- C1. `copyRect` postcondition: on a `W` by `H` screen as `init` sets it up and
for `0 ≤ x`, `0 ≤ y`, `0 ≤ w`, `0 ≤ h`, `x + w ≤ W`, `y + h ≤ H`, the call
`copyRect(x, y, w, h, buf, pitch)` ends normally, the usable-window pixel at
column `x + i`, row `y + j` equals `buf[j * pitch + i]` for all `0 ≤ i < w`,
`0 ≤ j < h`, every other byte of the offscreen block keeps its previous value,
and nothing but the offscreen block changes. -/
theorem copyRect_postcondition (s : System_SDL) (hs : s.wf) (x y w h : Int)
    (buf : Int → Byte) (pitch : Int)
    (hx : 0 ≤ x) (hy : 0 ≤ y) (hw : 0 ≤ w) (hh : 0 ≤ h)
    (hxw : x + w ≤ s._screenW) (hyh : y + h ≤ s._screenH) :
    (copyRect s x y w h buf pitch).1 = Status.ok ∧
    (∀ i j, 0 ≤ i → i < w → 0 ≤ j → j < h →
      (copyRect s x y w h buf pitch).2.offscreenPixel (x + i) (y + j) = buf (j * pitch + i)) ∧
    (∀ a, (¬ ∃ i j, 0 ≤ i ∧ i < w ∧ 0 ≤ j ∧ j < h ∧
          a = s._offscreen + (y + j) * s._screenW + (x + i)) →
      (copyRect s x y w h buf pitch).2._offscreenBase.data a = s._offscreenBase.data a) ∧
    (copyRect s x y w h buf pitch).2._offscreenBase.size = s._offscreenBase.size ∧
    (copyRect s x y w h buf pitch).2 =
      { s with _offscreenBase := (copyRect s x y w h buf pitch).2._offscreenBase } := by
  obtain ⟨hW0, hW31, _, hH31, hsz, hoff⟩ := hs
  have hk : ((h.toNat : Nat) : Int) = h := Int.toNat_of_nonneg hh
  obtain ⟨l1, l2, l3, l4⟩ := copyRectLoop_spec s x w buf pitch hW0 hW31 hx hw hxw hoff
    h.toNat y 0 s._offscreenBase hy (by omega) hsz
  have hass : x ≥ 0 ∧ wrapInt (x + w) ≤ s._screenW ∧ y ≥ 0 ∧ wrapInt (y + h) ≤ s._screenH := by
    rw [wrapInt_eq (x + w) (by omega) (by omega), wrapInt_eq (y + h) (by omega) (by omega)]
    exact ⟨hx, hxw, hy, hyh⟩
  simp only [copyRect, if_pos hass, System_SDL.offscreenPixel]
  refine ⟨l1, ?_, ?_, l2, trivial⟩
  · intro i j hi0 hiw hj0 hjh
    have := l3 (y + j) i (by omega) (by omega) hi0 hiw
    rw [← add_assoc, this]
    congr 1
    ring
  · intro a ha
    apply l4
    intro r hr1 hr2 hcon
    apply ha
    refine ⟨a - (s._offscreen + r * s._screenW + x), r - y, by omega, by omega, by omega,
      by omega, ?_⟩
    rw [show y + (r - y) = r by ring]
    ring

/-- C2. `fillRect` postcondition: under the same conditions the call
`fillRect(x, y, w, h, color)` ends normally, a usable-window pixel `(px, py)`
with `x ≤ px < x + w` and `y ≤ py < y + h` equals `color`, every other byte of
the offscreen block (inside or outside the usable window) keeps its previous
value, and nothing but the offscreen block changes. -/
theorem fillRect_postcondition (s : System_SDL) (hs : s.wf) (x y w h : Int) (color : Byte)
    (hx : 0 ≤ x) (hy : 0 ≤ y) (hw : 0 ≤ w) (hh : 0 ≤ h)
    (hxw : x + w ≤ s._screenW) (hyh : y + h ≤ s._screenH) :
    (fillRect s x y w h color).1 = Status.ok ∧
    (∀ px py, x ≤ px → px < x + w → y ≤ py → py < y + h →
      (fillRect s x y w h color).2.offscreenPixel px py = color) ∧
    (∀ px py, 0 ≤ px → px < s._screenW → 0 ≤ py → py < s._screenH →
      ¬ (x ≤ px ∧ px < x + w ∧ y ≤ py ∧ py < y + h) →
      (fillRect s x y w h color).2.offscreenPixel px py = s.offscreenPixel px py) ∧
    (∀ a, (¬ ∃ px py, x ≤ px ∧ px < x + w ∧ y ≤ py ∧ py < y + h ∧
          a = s._offscreen + py * s._screenW + px) →
      (fillRect s x y w h color).2._offscreenBase.data a = s._offscreenBase.data a) ∧
    (fillRect s x y w h color).2._offscreenBase.size = s._offscreenBase.size ∧
    (fillRect s x y w h color).2 =
      { s with _offscreenBase := (fillRect s x y w h color).2._offscreenBase } := by
  obtain ⟨hW0, hW31, _, hH31, hsz, hoff⟩ := hs
  have hk : ((h.toNat : Nat) : Int) = h := Int.toNat_of_nonneg hh
  obtain ⟨l1, l2, l3, l4⟩ := copyRectLoop_spec s x w (fun _ => color) 0 hW0 hW31 hx hw hxw hoff
    h.toNat y 0 s._offscreenBase hy (by omega) hsz
  have hass : x ≥ 0 ∧ wrapInt (x + w) ≤ s._screenW ∧ y ≥ 0 ∧ wrapInt (y + h) ≤ s._screenH := by
    rw [wrapInt_eq (x + w) (by omega) (by omega), wrapInt_eq (y + h) (by omega) (by omega)]
    exact ⟨hx, hxw, hy, hyh⟩
  simp only [fillRect, if_pos hass, System_SDL.offscreenPixel,
    fillRectLoop_eq_copyRectLoop s x w color h.toNat y 0 s._offscreenBase]
  refine ⟨l1, ?_, ?_, ?_, l2, trivial⟩
  · intro px py hp1 hp2 hq1 hq2
    have := l3 py (px - x) hq1 (by omega) (by omega) (by omega)
    rw [show s._offscreen + py * s._screenW + px
      = s._offscreen + py * s._screenW + x + (px - x) by ring]
    exact this
  · intro px py hp0 hpW hq0 hqH hnot
    apply l4
    intro r hr1 hr2 hcon
    rcases lt_trichotomy r py with hlt | heq | hgt
    · have h1 := mul_le_mul_of_nonneg_right (show r + 1 ≤ py by omega) hW0
      have h2 : (r + 1) * s._screenW = r * s._screenW + s._screenW := by ring
      omega
    · subst heq
      apply hnot
      omega
    · have h1 := mul_le_mul_of_nonneg_right (show py + 1 ≤ r by omega) hW0
      have h2 : (py + 1) * s._screenW = py * s._screenW + s._screenW := by ring
      omega
  · intro a ha
    apply l4
    intro r hr1 hr2 hcon
    apply ha
    exact ⟨a - (s._offscreen + r * s._screenW), r, by omega, by omega, hr1, by omega, by ring⟩

/-- C3 as stated fails when a sum of the assert overflows: on a 4 by 2 screen
with `x = 2147483647` and `w = 1` the sum `x + w` is above `W`, but as an `int`
it wraps to `-2147483648` and the assert passes.  With `h = 0` `copyRect` and
`fillRect` end normally, with `h = 1` they write at offset
`_offscreen + 2147483647` of the 24-byte allocation: a memory fault. -/
theorem rect_assert_passes_on_overflow :
    (demoSystem 4 2 rampBuf 9).wf ∧
    (2147483647 : Int) + 1 > (demoSystem 4 2 rampBuf 9)._screenW ∧
    wrapInt (2147483647 + 1) = -2147483648 ∧
    (copyRect (demoSystem 4 2 rampBuf 9) 2147483647 0 1 0 rampBuf 0).1 = Status.ok ∧
    (fillRect (demoSystem 4 2 rampBuf 9) 2147483647 0 1 0 200).1 = Status.ok ∧
    (copyRect (demoSystem 4 2 rampBuf 9) 2147483647 0 1 1 rampBuf 0).1 = Status.fault ∧
    (fillRect (demoSystem 4 2 rampBuf 9) 2147483647 0 1 1 200).1 = Status.fault := by
  refine ⟨by decide, by decide, by decide, by decide, by decide, by decide, by decide⟩

/-- C3 as amended: for every `x`, `y`, `w`, `h` whose sums `x + w` and `y + h`
stay in the range of `int`, `copyRect` and `fillRect` end on the failed
assertion if and only if `x < 0` or `y < 0` or `x + w > W` or `y + h > H`; and
whenever they end on it, for any arguments, the whole state, the offscreen
block included, is as it was before the call. -/
theorem rect_bounds_checked (s : System_SDL) (x y w h : Int) (buf : Int → Byte) (pitch : Int)
    (color : Byte)
    (hxw0 : -2 ^ 31 ≤ x + w) (hxw1 : x + w < 2 ^ 31)
    (hyh0 : -2 ^ 31 ≤ y + h) (hyh1 : y + h < 2 ^ 31) :
    ((copyRect s x y w h buf pitch).1 = Status.assertFailed ↔
      (x < 0 ∨ y < 0 ∨ x + w > s._screenW ∨ y + h > s._screenH)) ∧
    ((fillRect s x y w h color).1 = Status.assertFailed ↔
      (x < 0 ∨ y < 0 ∨ x + w > s._screenW ∨ y + h > s._screenH)) ∧
    (∀ x' y' w' h' : Int, (copyRect s x' y' w' h' buf pitch).1 = Status.assertFailed →
      (copyRect s x' y' w' h' buf pitch).2 = s) ∧
    (∀ x' y' w' h' : Int, (fillRect s x' y' w' h' color).1 = Status.assertFailed →
      (fillRect s x' y' w' h' color).2 = s) := by
  have hunmod : (∀ x' y' w' h' : Int, (copyRect s x' y' w' h' buf pitch).1 = Status.assertFailed →
      (copyRect s x' y' w' h' buf pitch).2 = s) ∧
      (∀ x' y' w' h' : Int, (fillRect s x' y' w' h' color).1 = Status.assertFailed →
        (fillRect s x' y' w' h' color).2 = s) := by
    constructor
    · intro x' y' w' h'
      by_cases hass : x' ≥ 0 ∧ wrapInt (x' + w') ≤ s._screenW ∧ y' ≥ 0 ∧
          wrapInt (y' + h') ≤ s._screenH
      · have hc := copyRectLoop_not_assert s x' w' buf pitch h'.toNat y' 0 s._offscreenBase
        simp only [copyRect, if_pos hass]
        exact fun e => absurd e hc
      · simp only [copyRect, if_neg hass]
        exact fun _ => trivial
    · intro x' y' w' h'
      by_cases hass : x' ≥ 0 ∧ wrapInt (x' + w') ≤ s._screenW ∧ y' ≥ 0 ∧
          wrapInt (y' + h') ≤ s._screenH
      · have hf := copyRectLoop_not_assert s x' w' (fun _ => color) 0 h'.toNat y' 0
          s._offscreenBase
        simp only [fillRect, if_pos hass,
          fillRectLoop_eq_copyRectLoop s x' w' color h'.toNat y' 0 s._offscreenBase]
        exact fun e => absurd e hf
      · simp only [fillRect, if_neg hass]
        exact fun _ => trivial
  refine ⟨?_, ?_, hunmod.1, hunmod.2⟩
  · by_cases hass : x ≥ 0 ∧ wrapInt (x + w) ≤ s._screenW ∧ y ≥ 0 ∧ wrapInt (y + h) ≤ s._screenH
    · have hc := copyRectLoop_not_assert s x w buf pitch h.toNat y 0 s._offscreenBase
      simp only [copyRect, if_pos hass]
      rw [wrapInt_eq (x + w) hxw0 hxw1, wrapInt_eq (y + h) hyh0 hyh1] at hass
      exact ⟨fun e => absurd e hc, fun e => by omega⟩
    · simp only [copyRect, if_neg hass]
      rw [wrapInt_eq (x + w) hxw0 hxw1, wrapInt_eq (y + h) hyh0 hyh1] at hass
      exact ⟨fun _ => by omega, fun _ => trivial⟩
  · by_cases hass : x ≥ 0 ∧ wrapInt (x + w) ≤ s._screenW ∧ y ≥ 0 ∧ wrapInt (y + h) ≤ s._screenH
    · have hf := copyRectLoop_not_assert s x w (fun _ => color) 0 h.toNat y 0 s._offscreenBase
      simp only [fillRect, if_pos hass,
        fillRectLoop_eq_copyRectLoop s x w color h.toNat y 0 s._offscreenBase]
      rw [wrapInt_eq (x + w) hxw0 hxw1, wrapInt_eq (y + h) hyh0 hyh1] at hass
      exact ⟨fun e => absurd e hf, fun e => by omega⟩
    · simp only [fillRect, if_neg hass]
      rw [wrapInt_eq (x + w) hxw0 hxw1, wrapInt_eq (y + h) hyh0 hyh1] at hass
      exact ⟨fun _ => by omega, fun _ => trivial⟩

/-- A witness of C3 as amended: a rectangle that starts left of a 4 by 2
screen, at `x = -1`. -/
theorem rect_bounds_checked_witness :
    (-2 ^ 31 : Int) ≤ -1 + 2 ∧ (-1 : Int) + 2 < 2 ^ 31 ∧
    (-2 ^ 31 : Int) ≤ 0 + 1 ∧ (0 : Int) + 1 < 2 ^ 31 ∧
    (((copyRect (demoSystem 4 2 rampBuf 9) (-1) 0 2 1 rampBuf 5).1 = Status.assertFailed ↔
      ((-1 : Int) < 0 ∨ (0 : Int) < 0 ∨ (-1 : Int) + 2 > (demoSystem 4 2 rampBuf 9)._screenW ∨
        (0 : Int) + 1 > (demoSystem 4 2 rampBuf 9)._screenH)) ∧
    ((fillRect (demoSystem 4 2 rampBuf 9) (-1) 0 2 1 200).1 = Status.assertFailed ↔
      ((-1 : Int) < 0 ∨ (0 : Int) < 0 ∨ (-1 : Int) + 2 > (demoSystem 4 2 rampBuf 9)._screenW ∨
        (0 : Int) + 1 > (demoSystem 4 2 rampBuf 9)._screenH)) ∧
    (∀ x' y' w' h' : Int,
      (copyRect (demoSystem 4 2 rampBuf 9) x' y' w' h' rampBuf 5).1 = Status.assertFailed →
      (copyRect (demoSystem 4 2 rampBuf 9) x' y' w' h' rampBuf 5).2
        = demoSystem 4 2 rampBuf 9) ∧
    (∀ x' y' w' h' : Int,
      (fillRect (demoSystem 4 2 rampBuf 9) x' y' w' h' 200).1 = Status.assertFailed →
      (fillRect (demoSystem 4 2 rampBuf 9) x' y' w' h' 200).2 = demoSystem 4 2 rampBuf 9)) :=
  ⟨by decide, by decide, by decide, by decide,
    rect_bounds_checked (demoSystem 4 2 rampBuf 9) (-1) 0 2 1 rampBuf 5 200
      (by decide) (by decide) (by decide) (by decide)⟩

/-- A witness of C1: a 2 by 2 rectangle copied at `(1, 0)` of a 4 by 2 screen
from a source of stride 5. -/
theorem copyRect_postcondition_witness :
    (demoSystem 4 2 rampBuf 9).wf ∧ (0 : Int) ≤ 1 ∧ (0 : Int) ≤ 0 ∧ (0 : Int) ≤ 2 ∧ (0 : Int) ≤ 2 ∧
    (1 : Int) + 2 ≤ (demoSystem 4 2 rampBuf 9)._screenW ∧
    (0 : Int) + 2 ≤ (demoSystem 4 2 rampBuf 9)._screenH ∧
    ((copyRect (demoSystem 4 2 rampBuf 9) 1 0 2 2 rampBuf 5).1 = Status.ok ∧
    (∀ i j, 0 ≤ i → i < 2 → 0 ≤ j → j < 2 →
      (copyRect (demoSystem 4 2 rampBuf 9) 1 0 2 2 rampBuf 5).2.offscreenPixel (1 + i) (0 + j)
        = rampBuf (j * 5 + i)) ∧
    (∀ a, (¬ ∃ i j, 0 ≤ i ∧ i < 2 ∧ 0 ≤ j ∧ j < 2 ∧
          a = (demoSystem 4 2 rampBuf 9)._offscreen
            + (0 + j) * (demoSystem 4 2 rampBuf 9)._screenW + (1 + i)) →
      (copyRect (demoSystem 4 2 rampBuf 9) 1 0 2 2 rampBuf 5).2._offscreenBase.data a
        = (demoSystem 4 2 rampBuf 9)._offscreenBase.data a) ∧
    (copyRect (demoSystem 4 2 rampBuf 9) 1 0 2 2 rampBuf 5).2._offscreenBase.size
      = (demoSystem 4 2 rampBuf 9)._offscreenBase.size ∧
    (copyRect (demoSystem 4 2 rampBuf 9) 1 0 2 2 rampBuf 5).2 =
      { demoSystem 4 2 rampBuf 9 with _offscreenBase :=
          (copyRect (demoSystem 4 2 rampBuf 9) 1 0 2 2 rampBuf 5).2._offscreenBase }) :=
  ⟨by decide, by decide, by decide, by decide, by decide, by decide, by decide,
    copyRect_postcondition (demoSystem 4 2 rampBuf 9) (by decide) 1 0 2 2 rampBuf 5
      (by decide) (by decide) (by decide) (by decide) (by decide) (by decide)⟩

/-- A witness of C2: a 2 by 2 rectangle of color 200 filled at `(1, 0)` of a
4 by 2 screen. -/
theorem fillRect_postcondition_witness :
    (demoSystem 4 2 rampBuf 9).wf ∧ (0 : Int) ≤ 1 ∧ (0 : Int) ≤ 0 ∧ (0 : Int) ≤ 2 ∧ (0 : Int) ≤ 2 ∧
    (1 : Int) + 2 ≤ (demoSystem 4 2 rampBuf 9)._screenW ∧
    (0 : Int) + 2 ≤ (demoSystem 4 2 rampBuf 9)._screenH ∧
    ((fillRect (demoSystem 4 2 rampBuf 9) 1 0 2 2 200).1 = Status.ok ∧
    (∀ px py, 1 ≤ px → px < 1 + 2 → 0 ≤ py → py < 0 + 2 →
      (fillRect (demoSystem 4 2 rampBuf 9) 1 0 2 2 200).2.offscreenPixel px py = 200) ∧
    (∀ px py, 0 ≤ px → px < (demoSystem 4 2 rampBuf 9)._screenW →
      0 ≤ py → py < (demoSystem 4 2 rampBuf 9)._screenH →
      ¬ (1 ≤ px ∧ px < 1 + 2 ∧ 0 ≤ py ∧ py < 0 + 2) →
      (fillRect (demoSystem 4 2 rampBuf 9) 1 0 2 2 200).2.offscreenPixel px py
        = (demoSystem 4 2 rampBuf 9).offscreenPixel px py) ∧
    (∀ a, (¬ ∃ px py, 1 ≤ px ∧ px < 1 + 2 ∧ 0 ≤ py ∧ py < 0 + 2 ∧
          a = (demoSystem 4 2 rampBuf 9)._offscreen
            + py * (demoSystem 4 2 rampBuf 9)._screenW + px) →
      (fillRect (demoSystem 4 2 rampBuf 9) 1 0 2 2 200).2._offscreenBase.data a
        = (demoSystem 4 2 rampBuf 9)._offscreenBase.data a) ∧
    (fillRect (demoSystem 4 2 rampBuf 9) 1 0 2 2 200).2._offscreenBase.size
      = (demoSystem 4 2 rampBuf 9)._offscreenBase.size ∧
    (fillRect (demoSystem 4 2 rampBuf 9) 1 0 2 2 200).2 =
      { demoSystem 4 2 rampBuf 9 with _offscreenBase :=
          (fillRect (demoSystem 4 2 rampBuf 9) 1 0 2 2 200).2._offscreenBase }) :=
  ⟨by decide, by decide, by decide, by decide, by decide, by decide, by decide,
    fillRect_postcondition (demoSystem 4 2 rampBuf 9) (by decide) 1 0 2 2 200
      (by decide) (by decide) (by decide) (by decide) (by decide) (by decide)⟩

/-! ## Palette -/

theorem setPaletteLoop_spec (pal : Int → Byte) (shift depth : Int)
    (hd : ¬ (shift ≠ 0 ∧ depth < 0)) :
    ∀ (k : Nat) (i : Int) (p : Int → SDL_Color),
      (setPaletteLoop pal shift depth k i p).1 = Status.ok ∧
      ∀ j, (setPaletteLoop pal shift depth k i p).2 j =
        if i ≤ j ∧ j < i + k then
          { r := expandChannel (pal (j * 3 + 0)) shift depth
            g := expandChannel (pal (j * 3 + 1)) shift depth
            b := expandChannel (pal (j * 3 + 2)) shift depth }
        else p j := by
  intro k
  induction k with
  | zero =>
    intro i p
    refine ⟨rfl, fun j => ?_⟩
    have : ¬ (i ≤ j ∧ j < i + ((0 : Nat) : Int)) := by omega
    simp only [if_neg this, setPaletteLoop]
  | succ k ih =>
    intro i p
    simp only [setPaletteLoop, if_neg hd]
    obtain ⟨h1, h2⟩ := ih (i + 1) (fun j => if j = i then
      { r := expandChannel (pal (i * 3 + 0)) shift depth
        g := expandChannel (pal (i * 3 + 1)) shift depth
        b := expandChannel (pal (i * 3 + 2)) shift depth } else p j)
    refine ⟨h1, fun j => ?_⟩
    rw [h2 j]
    by_cases hji : j = i
    · subst hji
      have c1 : ¬ (j + 1 ≤ j ∧ j < j + 1 + (k : Int)) := by omega
      have c2 : j ≤ j ∧ j < j + ((k + 1 : Nat) : Int) := by push_cast; omega
      simp only [if_neg c1, if_pos c2, if_true]
    · by_cases hin : i + 1 ≤ j ∧ j < i + 1 + (k : Int)
      · have c2 : i ≤ j ∧ j < i + ((k + 1 : Nat) : Int) := by push_cast; omega
        simp only [if_pos hin, if_pos c2]
      · have c2 : ¬ (i ≤ j ∧ j < i + ((k + 1 : Nat) : Int)) := by push_cast; omega
        simp only [if_neg hin, if_neg c2, if_neg hji]

/-- C8. `setPalette` expansion formula: for every count `n ≤ 256`, bit depth
`1 ≤ d ≤ 8`, source array and prior palette, `setPalette(pal, n, d)` ends
normally, each channel of palette entry `0 ≤ i < n` is the low 8 bits of
`(v << (8 - d)) | (v >> d)` for the source byte `v = pal[3 i + c]` when `d < 8`
and is `v` itself when `d = 8`, and every palette entry from `n` on keeps its
previous value. -/
theorem setPalette_expansion (s : System_SDL) (pal : Int → Byte) (n : Int) (d : Nat)
    (hn : n ≤ 256) (hd1 : 1 ≤ d) (hd8 : d ≤ 8) :
    (setPalette s pal n d).1 = Status.ok ∧
    (∀ i, 0 ≤ i → i < n →
      (((setPalette s pal n d).2._pal i).r.val =
        if d < 8 then ((pal (3 * i + 0)).val <<< (8 - d) ||| (pal (3 * i + 0)).val >>> d) % 256
        else (pal (3 * i + 0)).val) ∧
      (((setPalette s pal n d).2._pal i).g.val =
        if d < 8 then ((pal (3 * i + 1)).val <<< (8 - d) ||| (pal (3 * i + 1)).val >>> d) % 256
        else (pal (3 * i + 1)).val) ∧
      (((setPalette s pal n d).2._pal i).b.val =
        if d < 8 then ((pal (3 * i + 2)).val <<< (8 - d) ||| (pal (3 * i + 2)).val >>> d) % 256
        else (pal (3 * i + 2)).val)) ∧
    (∀ i, n ≤ i → (setPalette s pal n d).2._pal i = s._pal i) := by
  have hdf : ¬ ((8 : Int) - d ≠ 0 ∧ (d : Int) < 0) := by omega
  obtain ⟨h1, h2⟩ := setPaletteLoop_spec pal (8 - d) d hdf n.toNat 0 s._pal
  have hch : ∀ v : Byte, (expandChannel v (8 - (d : Int)) d).val =
      if d < 8 then (v.val <<< (8 - d) ||| v.val >>> d) % 256 else v.val := by
    intro v
    unfold expandChannel toByte
    by_cases h8 : d < 8
    · have hs : (8 : Int) - d ≠ 0 := by omega
      have ht : ((8 : Int) - d).toNat = 8 - d := by omega
      simp only [if_pos hs, if_pos h8, ht, Int.toNat_ofNat]
    · have hs : ¬ ((8 : Int) - d ≠ 0) := by omega
      simp only [if_neg hs, if_neg h8]
      exact Nat.mod_eq_of_lt v.isLt
  have e1 : ¬ ¬ n ≤ 256 := not_not.mpr hn
  have e2 : ¬ ¬ (d : Int) ≤ 8 := by omega
  have hres : setPalette s pal n d = (Status.ok, { s with
        _pal := (setPaletteLoop pal (8 - d) d n.toNat 0 s._pal).2
        _screen := { s._screen with
          colors := fun j => if 0 ≤ j ∧ j < 256
            then (setPaletteLoop pal (8 - d) d n.toNat 0 s._pal).2 j else s._screen.colors j } }) := by
    simp only [setPalette, if_neg e1, if_neg e2, h1]
  rw [hres]
  refine ⟨rfl, ?_, ?_⟩
  · intro i hi0 hin
    have hc : (0 : Int) ≤ i ∧ i < 0 + (n.toNat : Int) := by omega
    simp only [h2 i, if_pos hc, hch]
    rw [show i * 3 + 0 = 3 * i + 0 by ring, show i * 3 + 1 = 3 * i + 1 by ring,
      show i * 3 + 2 = 3 * i + 2 by ring]
    exact ⟨rfl, rfl, rfl⟩
  · intro i hni
    have hc : ¬ ((0 : Int) ≤ i ∧ i < 0 + (n.toNat : Int)) := by omega
    simp only [h2 i, if_neg hc]

/-- A witness of C8: two entries of a 6-bit palette. -/
theorem setPalette_expansion_witness :
    (2 : Int) ≤ 256 ∧ 1 ≤ 6 ∧ 6 ≤ 8 ∧
    ((setPalette (demoSystem 4 2 rampBuf 9) rampBuf 2 ((6 : Nat) : Int)).1 = Status.ok ∧
    (∀ i, 0 ≤ i → i < 2 →
      (((setPalette (demoSystem 4 2 rampBuf 9) rampBuf 2 ((6 : Nat) : Int)).2._pal i).r.val =
        if 6 < 8 then
          ((rampBuf (3 * i + 0)).val <<< (8 - 6) ||| (rampBuf (3 * i + 0)).val >>> 6) % 256
        else (rampBuf (3 * i + 0)).val) ∧
      (((setPalette (demoSystem 4 2 rampBuf 9) rampBuf 2 ((6 : Nat) : Int)).2._pal i).g.val =
        if 6 < 8 then
          ((rampBuf (3 * i + 1)).val <<< (8 - 6) ||| (rampBuf (3 * i + 1)).val >>> 6) % 256
        else (rampBuf (3 * i + 1)).val) ∧
      (((setPalette (demoSystem 4 2 rampBuf 9) rampBuf 2 ((6 : Nat) : Int)).2._pal i).b.val =
        if 6 < 8 then
          ((rampBuf (3 * i + 2)).val <<< (8 - 6) ||| (rampBuf (3 * i + 2)).val >>> 6) % 256
        else (rampBuf (3 * i + 2)).val)) ∧
    (∀ i, 2 ≤ i →
      (setPalette (demoSystem 4 2 rampBuf 9) rampBuf 2 ((6 : Nat) : Int)).2._pal i
        = (demoSystem 4 2 rampBuf 9)._pal i)) :=
  ⟨by decide, by decide, by decide,
    setPalette_expansion (demoSystem 4 2 rampBuf 9) rampBuf 2 6
      (by decide) (by decide) (by decide)⟩

/-- C9, the code at the maximal inputs: for each bit depth `d` from 4 to 7 the
value `2 ^ d - 1` of every channel is stored as `(2 ^ d - 1) << (8 - d)`, that
is 240, 248, 252 and 254, never 255: `r >> depth` is 0 for a `depth`-bit `r`, so
the stored byte is the plain shift. -/
theorem setPalette_max_not_255 :
    ((setPalette (demoSystem 4 2 rampBuf 9) (fun _ => 15) 1 4).2._pal 0).r.val = 240 ∧
    ((setPalette (demoSystem 4 2 rampBuf 9) (fun _ => 31) 1 5).2._pal 0).r.val = 248 ∧
    ((setPalette (demoSystem 4 2 rampBuf 9) (fun _ => 63) 1 6).2._pal 0).r.val = 252 ∧
    ((setPalette (demoSystem 4 2 rampBuf 9) (fun _ => 127) 1 7).2._pal 0).r.val = 254 ∧
    (setPalette (demoSystem 4 2 rampBuf 9) (fun _ => 63) 1 6).1 = Status.ok := by
  decide
theorem memmove_eq (dst : Mem) (d : Int) (src : Mem) (sa : Int) (n : Nat)
    (h : 0 ≤ d ∧ d + n ≤ dst.size ∧ 0 ≤ sa ∧ sa + n ≤ src.size) :
    memmove dst d src sa n = some { dst with
      data := fun a => if d ≤ a ∧ a < d + n then src.data (sa + (a - d)) else dst.data a } := by
  unfold memmove
  rw [if_pos h]

theorem memset_eq (dst : Mem) (d : Int) (c : Byte) (n : Nat)
    (h : 0 ≤ d ∧ d + n ≤ dst.size) :
    memset dst d c n = some { dst with
      data := fun a => if d ≤ a ∧ a < d + n then c else dst.data a } := by
  unfold memset
  rw [if_pos h]

/-! ## Presentation -/

/-- C4. Zero shake is an identity presentation: with the shake offset `(0, 0)`
and a destination surface of pitch `W`, `updateScreen` ends normally, the
destination pixels are the original ones changed by the one copy of `W * H`
bytes and by nothing else (no byte is cleared), and the destination pixel
`(px, py)` equals the offscreen usable-window pixel `(px, py)` for every
`0 ≤ px < W`, `0 ≤ py < H`. -/
theorem updateScreen_zero_shake (s : System_SDL) (hs : s.wf) (hsc : s.screenWf)
    (hdx : s._shakeDx = 0) (hdy : s._shakeDy = 0) (drawWidescreen : Bool) :
    (updateScreen s drawWidescreen).1 = Status.ok ∧
    memmove s._screen.pixels 0 s._offscreenBase s._offscreen (s._screenW * s._screenH).toNat
      = some (updateScreen s drawWidescreen).2._screen.pixels ∧
    (∀ px py, 0 ≤ px → px < s._screenW → 0 ≤ py → py < s._screenH →
      (updateScreen s drawWidescreen).2.screenPixel px py = s.offscreenPixel px py) := by
  obtain ⟨hW0, hW31, hH0, hH31, hsz, hoff⟩ := hs
  obtain ⟨hp, hps⟩ := hsc
  have hWH : 0 ≤ s._screenW * s._screenH := mul_nonneg hW0 hH0
  have hWH64 : s._screenW * s._screenH < 2 ^ 64 := by nlinarith
  have hn : toSizeT (s._screenW * s._screenH * 1) = (s._screenW * s._screenH).toNat := by
    have := toSizeT_eq (s._screenW * s._screenH) hWH hWH64
    rw [mul_one]; omega
  have hexp := offscreenSize_expand s._screenW s._screenH
  have hcomm : s._screenW * s._screenH = s._screenH * s._screenW := mul_comm _ _
  have hin : (0 : Int) ≤ 0 ∧
      0 + ((s._screenW * s._screenH).toNat : Int) ≤ (s._screen.pixels.size : Int) ∧
      0 ≤ s._offscreen ∧
      s._offscreen + ((s._screenW * s._screenH).toNat : Int) ≤ (s._offscreenBase.size : Int) := by
    refine ⟨by omega, by omega, by omega, by omega⟩
  have hmm := memmove_eq s._screen.pixels 0 s._offscreenBase s._offscreen
    (s._screenW * s._screenH).toNat hin
  have e1 : ¬ s._shakeDy > 0 := by omega
  have e2 : ¬ s._shakeDy < 0 := by omega
  have e3 : ¬ s._shakeDx > 0 := by omega
  have e4 : ¬ s._shakeDx < 0 := by omega
  have hres : updateScreen s drawWidescreen = (Status.ok, { s with
      _screen := { s._screen with
        pixels := { s._screen.pixels with
          data := fun a =>
            if 0 ≤ a ∧ a < 0 + ((s._screenW * s._screenH).toNat : Int)
              then s._offscreenBase.data (s._offscreen + (a - 0)) else s._screen.pixels.data a }
        colors := fun j => if 0 ≤ j ∧ j < 256 then s._pal j else s._screen.colors j }
      _shakeDx := 0
      _shakeDy := 0 }) := by
    simp only [updateScreen, shakeVertical, shakeHorizontal, if_neg e1, if_neg e2, if_neg e3,
      if_neg e4, hn, mul_zero, hmm]
  rw [hres]
  refine ⟨rfl, hmm, ?_⟩
  intro px py hx0 hxW hy0 hyH
  have h1 : 0 ≤ py * s._screenW := mul_nonneg hy0 hW0
  have h2 : (py + 1) * s._screenW ≤ s._screenH * s._screenW :=
    mul_le_mul_of_nonneg_right (by omega) hW0
  have h3 : (py + 1) * s._screenW = py * s._screenW + s._screenW := by ring
  have hc : (0 : Int) ≤ py * (s._screen.pitch : Int) + px ∧
      py * (s._screen.pitch : Int) + px
        < 0 + ((s._screenW * s._screenH).toNat : Int) := by
    rw [hp]; constructor <;> omega
  show (if (0 : Int) ≤ py * (s._screen.pitch : Int) + px ∧
      py * (s._screen.pitch : Int) + px < 0 + ((s._screenW * s._screenH).toNat : Int)
    then s._offscreenBase.data (s._offscreen + (py * (s._screen.pitch : Int) + px - 0))
    else s._screen.pixels.data (py * (s._screen.pitch : Int) + px))
    = s._offscreenBase.data (s._offscreen + py * s._screenW + px)
  rw [if_pos hc, hp]
  congr 1
  ring
/-- The rows cleared by the loop of `clearScreen` when every `memset` stays
inside the block: the loop ends normally, keeps the size of the block, zeroes
the `c` bytes at byte `2 * (p + j * dstPitch)` for each `j < k` and changes no
other byte. -/
theorem clearScreenLoop_spec (dstPitch w : Int) (c : Nat)
    (hc : toSizeT w * 2 * 1 % sizeMod = c) :
    ∀ (k : Nat) (p : Int) (m : Mem), 0 ≤ p → 0 ≤ dstPitch →
      (∀ j : Int, 0 ≤ j → j < k → 2 * (p + j * dstPitch) + c ≤ m.size) →
      (clearScreenLoop dstPitch w k p m).1 = Status.ok ∧
      (clearScreenLoop dstPitch w k p m).2.size = m.size ∧
      (∀ j a, 0 ≤ j → j < (k : Int) → 2 * (p + j * dstPitch) ≤ a →
        a < 2 * (p + j * dstPitch) + c → (clearScreenLoop dstPitch w k p m).2.data a = 0) ∧
      (∀ a, (∀ j, 0 ≤ j → j < (k : Int) →
          ¬ (2 * (p + j * dstPitch) ≤ a ∧ a < 2 * (p + j * dstPitch) + c)) →
        (clearScreenLoop dstPitch w k p m).2.data a = m.data a) := by
  intro k
  induction k with
  | zero =>
    intro p m _ _ _
    refine ⟨rfl, rfl, ?_, ?_⟩
    · intro j a h1 h2; omega
    · intro a _; rfl
  | succ k ih =>
    intro p m hp hdp hb
    have hb0 := hb 0 (le_refl 0) (by push_cast; omega)
    have hin : 0 ≤ 2 * p ∧ 2 * p + (c : Int) ≤ (m.size : Int) := by
      constructor <;> omega
    have hstep : clearScreenLoop dstPitch w (k + 1) p m =
        clearScreenLoop dstPitch w k (p + dstPitch)
          { m with
            data := fun a => if 2 * p ≤ a ∧ a < 2 * p + (c : Int) then 0 else m.data a } := by
      simp only [clearScreenLoop, hc, memset_eq m (2 * p) 0 c hin]
    rw [hstep]
    obtain ⟨i1, i2, i3, i4⟩ := ih (p + dstPitch)
      { m with
        data := fun a => if 2 * p ≤ a ∧ a < 2 * p + (c : Int) then 0 else m.data a }
      (by omega) hdp
      (by
        intro j hj0 hjk
        have h1 := hb (j + 1) (by omega) (by push_cast; omega)
        have h2 : (j + 1) * dstPitch = j * dstPitch + dstPitch := by ring
        show 2 * (p + dstPitch + j * dstPitch) + (c : Int) ≤ (m.size : Int)
        omega)
    refine ⟨i1, i2, ?_, ?_⟩
    · intro j a hj0 hjk ha1 ha2
      by_cases hex : ∃ j', 0 ≤ j' ∧ j' < (k : Int) ∧
          2 * (p + dstPitch + j' * dstPitch) ≤ a ∧ a < 2 * (p + dstPitch + j' * dstPitch) + c
      · obtain ⟨j', h1, h2, h3, h4⟩ := hex
        exact i3 j' a h1 h2 h3 h4
      · rw [i4 a (fun j' h1 h2 hcon => hex ⟨j', h1, h2, hcon.1, hcon.2⟩)]
        by_cases hj : j = 0
        · subst hj
          have hcnd : 2 * p ≤ a ∧ a < 2 * p + (c : Int) := by constructor <;> omega
          show (if 2 * p ≤ a ∧ a < 2 * p + (c : Int) then (0 : Byte) else m.data a) = 0
          rw [if_pos hcnd]
        · exfalso
          apply hex
          refine ⟨j - 1, by omega, by push_cast at hjk; omega, ?_, ?_⟩
          · have h2 : (j - 1) * dstPitch = j * dstPitch - dstPitch := by ring
            omega
          · have h2 : (j - 1) * dstPitch = j * dstPitch - dstPitch := by ring
            omega
    · intro a ha
      rw [i4 a (fun j' h1 h2 hcon => by
        have h3 : (j' + 1) * dstPitch = j' * dstPitch + dstPitch := by ring
        exact ha (j' + 1) (by omega) (by push_cast; omega) (by constructor <;> omega))]
      have hn := ha 0 (le_refl 0) (by push_cast; omega)
      have hcnd : ¬ (2 * p ≤ a ∧ a < 2 * p + (c : Int)) := by
        intro hcon; apply hn; constructor <;> omega
      show (if 2 * p ≤ a ∧ a < 2 * p + (c : Int) then (0 : Byte) else m.data a) = m.data a
      rw [if_neg hcnd]
/-- C5. Downward shake: for an even `W`, a destination surface of pitch `W` and
the shake offset `(0, dy)` with `0 < dy < H`, `updateScreen` ends normally, the
top `dy` destination rows are all zero and destination row `dy + j` equals
offscreen row `j` for every `0 ≤ j < H - dy`, whatever the destination held
before. -/
theorem updateScreen_shake_down (s : System_SDL) (hs : s.wf) (hsc : s.screenWf)
    (heven : s._screenW % 2 = 0) (hdx : s._shakeDx = 0)
    (hdy0 : 0 < s._shakeDy) (hdyH : s._shakeDy < s._screenH) (drawWidescreen : Bool) :
    (updateScreen s drawWidescreen).1 = Status.ok ∧
    (∀ px py, 0 ≤ px → px < s._screenW → 0 ≤ py → py < s._shakeDy →
      (updateScreen s drawWidescreen).2.screenPixel px py = 0) ∧
    (∀ px j, 0 ≤ px → px < s._screenW → 0 ≤ j → j < s._screenH - s._shakeDy →
      (updateScreen s drawWidescreen).2.screenPixel px (s._shakeDy + j)
        = s.offscreenPixel px j) := by
  obtain ⟨hW0, hW31, hH0, hH31, hsz, hoff⟩ := hs
  obtain ⟨hp, hps⟩ := hsc
  have hexp := offscreenSize_expand s._screenW s._screenH
  have hcomm : s._screenW * s._screenH = s._screenH * s._screenW := mul_comm _ _
  -- the pitch in 16-bit units
  have hdp : (2 : Int) * ((s._screen.pitch / 2 : Nat) : Int) = s._screenW := by omega
  have hdp0 : (0 : Int) ≤ ((s._screen.pitch / 2 : Nat) : Int) := by omega
  -- the length of one memset
  have hc : toSizeT s._screenW * 2 * 1 % sizeMod = (2 * s._screenW).toNat := by
    have := toSizeT_eq s._screenW hW0 (by omega)
    unfold sizeMod
    omega
  have hk : (((s._shakeDy * 1).toNat : Nat) : Int) = s._shakeDy := by omega
  have hdyW : s._shakeDy * s._screenW + s._screenW ≤ s._screenH * s._screenW := by
    have := mul_le_mul_of_nonneg_right (show s._shakeDy + 1 ≤ s._screenH by omega) hW0
    have h2 : (s._shakeDy + 1) * s._screenW = s._shakeDy * s._screenW + s._screenW := by ring
    omega
  have hdyW0 : 0 ≤ s._shakeDy * s._screenW := mul_nonneg (by omega) hW0
  have hjdp : ∀ j : Int, 2 * (j * ((s._screen.pitch / 2 : Nat) : Int)) = j * s._screenW := by
    intro j
    rw [← hdp]; ring
  obtain ⟨c1, c2, c3, _⟩ := clearScreenLoop_spec ((s._screen.pitch / 2 : Nat) : Int) s._screenW
    (2 * s._screenW).toNat hc (s._shakeDy * 1).toNat 0 s._screen.pixels (le_refl 0) hdp0
    (by
      intro j hj0 hjk
      have h1 := hjdp j
      have h2 := mul_le_mul_of_nonneg_right (show j + 1 ≤ s._shakeDy by omega) hW0
      have h3 : (j + 1) * s._screenW = j * s._screenW + s._screenW := by ring
      omega)
  -- the final copy
  have hh : 0 ≤ s._screenW * (s._screenH - s._shakeDy) := mul_nonneg hW0 (by omega)
  have hhe : s._screenW * (s._screenH - s._shakeDy)
      = s._screenH * s._screenW - s._shakeDy * s._screenW := by ring
  have hn : toSizeT (s._screenW * (s._screenH - s._shakeDy) * 1)
      = (s._screenW * (s._screenH - s._shakeDy)).toNat := by
    have hlt : s._screenW * s._screenH < 2 ^ 64 := by nlinarith
    have := toSizeT_eq (s._screenW * (s._screenH - s._shakeDy)) hh (by omega)
    rw [mul_one]; omega
  have hd : 2 * (s._shakeDy * ((s._screen.pitch / 2 : Nat) : Int))
      = s._shakeDy * s._screenW := hjdp _
  have hin : 0 ≤ s._shakeDy * s._screenW ∧
      s._shakeDy * s._screenW + ((s._screenW * (s._screenH - s._shakeDy)).toNat : Int)
        ≤ ((clearScreenLoop ((s._screen.pitch / 2 : Nat) : Int) s._screenW
            (s._shakeDy * 1).toNat 0 s._screen.pixels).2.size : Int) ∧
      0 ≤ s._offscreen ∧
      s._offscreen + ((s._screenW * (s._screenH - s._shakeDy)).toNat : Int)
        ≤ (s._offscreenBase.size : Int) := by
    rw [c2]
    refine ⟨by omega, by omega, by omega, by omega⟩
  have hmm := memmove_eq _ _ _ _ _ hin
  have e1 : s._shakeDy > 0 := hdy0
  have e3 : ¬ s._shakeDx > 0 := by omega
  have e4 : ¬ s._shakeDx < 0 := by omega
  have hres : updateScreen s drawWidescreen = (Status.ok, { s with
      _screen := { s._screen with
        pixels := { (clearScreenLoop ((s._screen.pitch / 2 : Nat) : Int) s._screenW
            (s._shakeDy * 1).toNat 0 s._screen.pixels).2 with
          data := fun a =>
            if s._shakeDy * s._screenW ≤ a ∧ a < s._shakeDy * s._screenW
                + ((s._screenW * (s._screenH - s._shakeDy)).toNat : Int)
              then s._offscreenBase.data (s._offscreen + (a - s._shakeDy * s._screenW))
              else (clearScreenLoop ((s._screen.pitch / 2 : Nat) : Int) s._screenW
                (s._shakeDy * 1).toNat 0 s._screen.pixels).2.data a }
        colors := fun j => if 0 ≤ j ∧ j < 256 then s._pal j else s._screen.colors j }
      _shakeDx := 0
      _shakeDy := 0 }) := by
    simp only [updateScreen, shakeVertical, shakeHorizontal, clearScreen, if_pos e1, if_neg e3,
      if_neg e4, zero_mul, zero_add, mul_zero, add_zero, c1, hn, hd, hmm]
  rw [hres]
  refine ⟨rfl, ?_, ?_⟩
  · intro px py hx0 hxW hy0 hyd
    have h1 := mul_le_mul_of_nonneg_right (show py + 1 ≤ s._shakeDy by omega) hW0
    have h2 : (py + 1) * s._screenW = py * s._screenW + s._screenW := by ring
    have h3 : 0 ≤ py * s._screenW := mul_nonneg hy0 hW0
    have hcnd : ¬ (s._shakeDy * s._screenW ≤ py * (s._screen.pitch : Int) + px ∧
        py * (s._screen.pitch : Int) + px < s._shakeDy * s._screenW
          + ((s._screenW * (s._screenH - s._shakeDy)).toNat : Int)) := by
      rw [hp]; omega
    show (if s._shakeDy * s._screenW ≤ py * (s._screen.pitch : Int) + px ∧
        py * (s._screen.pitch : Int) + px < s._shakeDy * s._screenW
          + ((s._screenW * (s._screenH - s._shakeDy)).toNat : Int)
      then s._offscreenBase.data
        (s._offscreen + (py * (s._screen.pitch : Int) + px - s._shakeDy * s._screenW))
      else (clearScreenLoop ((s._screen.pitch / 2 : Nat) : Int) s._screenW
        (s._shakeDy * 1).toNat 0 s._screen.pixels).2.data (py * (s._screen.pitch : Int) + px))
      = 0
    rw [if_neg hcnd]
    have h4 := hjdp py
    exact c3 py _ hy0 (by omega) (by rw [hp]; omega) (by rw [hp]; omega)
  · intro px j hx0 hxW hj0 hjH
    have h1 := mul_le_mul_of_nonneg_right (show s._shakeDy + j + 1 ≤ s._screenH by omega) hW0
    have h2 : (s._shakeDy + j + 1) * s._screenW
        = s._shakeDy * s._screenW + j * s._screenW + s._screenW := by ring
    have h3 : 0 ≤ j * s._screenW := mul_nonneg hj0 hW0
    have h5 : (s._shakeDy + j) * s._screenW = s._shakeDy * s._screenW + j * s._screenW := by ring
    have hcnd : s._shakeDy * s._screenW ≤ (s._shakeDy + j) * (s._screen.pitch : Int) + px ∧
        (s._shakeDy + j) * (s._screen.pitch : Int) + px < s._shakeDy * s._screenW
          + ((s._screenW * (s._screenH - s._shakeDy)).toNat : Int) := by
      rw [hp]; constructor <;> omega
    show (if s._shakeDy * s._screenW ≤ (s._shakeDy + j) * (s._screen.pitch : Int) + px ∧
        (s._shakeDy + j) * (s._screen.pitch : Int) + px < s._shakeDy * s._screenW
          + ((s._screenW * (s._screenH - s._shakeDy)).toNat : Int)
      then s._offscreenBase.data
        (s._offscreen + ((s._shakeDy + j) * (s._screen.pitch : Int) + px
          - s._shakeDy * s._screenW))
      else (clearScreenLoop ((s._screen.pitch / 2 : Nat) : Int) s._screenW
        (s._shakeDy * 1).toNat 0 s._screen.pixels).2.data
          ((s._shakeDy + j) * (s._screen.pitch : Int) + px))
      = s._offscreenBase.data (s._offscreen + j * s._screenW + px)
    rw [if_pos hcnd, hp]
    congr 1
    ring
/-- A witness of C4: a 4 by 2 screen presented with no shake over a surface
full of stale bytes. -/
theorem updateScreen_zero_shake_witness :
    (demoSystem 4 2 rampBuf 9).wf ∧ (demoSystem 4 2 rampBuf 9).screenWf ∧
    (demoSystem 4 2 rampBuf 9)._shakeDx = 0 ∧ (demoSystem 4 2 rampBuf 9)._shakeDy = 0 ∧
    ((updateScreen (demoSystem 4 2 rampBuf 9) false).1 = Status.ok ∧
    memmove (demoSystem 4 2 rampBuf 9)._screen.pixels 0 (demoSystem 4 2 rampBuf 9)._offscreenBase
        (demoSystem 4 2 rampBuf 9)._offscreen
        ((demoSystem 4 2 rampBuf 9)._screenW * (demoSystem 4 2 rampBuf 9)._screenH).toNat
      = some (updateScreen (demoSystem 4 2 rampBuf 9) false).2._screen.pixels ∧
    (∀ px py, 0 ≤ px → px < (demoSystem 4 2 rampBuf 9)._screenW →
      0 ≤ py → py < (demoSystem 4 2 rampBuf 9)._screenH →
      (updateScreen (demoSystem 4 2 rampBuf 9) false).2.screenPixel px py
        = (demoSystem 4 2 rampBuf 9).offscreenPixel px py)) :=
  ⟨by decide, by decide, by decide, by decide,
    updateScreen_zero_shake (demoSystem 4 2 rampBuf 9) (by decide) (by decide)
      (by decide) (by decide) false⟩

/-- A witness of C5: a 4 by 3 screen shaken down by one row. -/
theorem updateScreen_shake_down_witness :
    (shakeScreen (demoSystem 4 3 rampBuf 9) 0 1).wf ∧
    (shakeScreen (demoSystem 4 3 rampBuf 9) 0 1).screenWf ∧
    (shakeScreen (demoSystem 4 3 rampBuf 9) 0 1)._screenW % 2 = 0 ∧
    (shakeScreen (demoSystem 4 3 rampBuf 9) 0 1)._shakeDx = 0 ∧
    0 < (shakeScreen (demoSystem 4 3 rampBuf 9) 0 1)._shakeDy ∧
    (shakeScreen (demoSystem 4 3 rampBuf 9) 0 1)._shakeDy
      < (shakeScreen (demoSystem 4 3 rampBuf 9) 0 1)._screenH ∧
    ((updateScreen (shakeScreen (demoSystem 4 3 rampBuf 9) 0 1) false).1 = Status.ok ∧
    (∀ px py, 0 ≤ px → px < (shakeScreen (demoSystem 4 3 rampBuf 9) 0 1)._screenW →
      0 ≤ py → py < (shakeScreen (demoSystem 4 3 rampBuf 9) 0 1)._shakeDy →
      (updateScreen (shakeScreen (demoSystem 4 3 rampBuf 9) 0 1) false).2.screenPixel px py = 0) ∧
    (∀ px j, 0 ≤ px → px < (shakeScreen (demoSystem 4 3 rampBuf 9) 0 1)._screenW → 0 ≤ j →
      j < (shakeScreen (demoSystem 4 3 rampBuf 9) 0 1)._screenH
        - (shakeScreen (demoSystem 4 3 rampBuf 9) 0 1)._shakeDy →
      (updateScreen (shakeScreen (demoSystem 4 3 rampBuf 9) 0 1) false).2.screenPixel px
          ((shakeScreen (demoSystem 4 3 rampBuf 9) 0 1)._shakeDy + j)
        = (shakeScreen (demoSystem 4 3 rampBuf 9) 0 1).offscreenPixel px j)) :=
  ⟨by decide, by decide, by decide, by decide, by decide, by decide,
    updateScreen_shake_down (shakeScreen (demoSystem 4 3 rampBuf 9) 0 1) (by decide) (by decide)
      (by decide) (by decide) (by decide) (by decide) false⟩

/-- C6, the code at a failing input: a 4 by 2 screen whose offscreen bytes are
all non-zero, shaken right by `dx = 1` over a surface of pitch 4.
`updateScreen` ends normally, but the destination pixel `(1, 0)` is zero where
the translated image has the offscreen pixel `(0, 0)`, which is 8, and the
destination pixel `(0, 1)`, in the column to clear, holds the offscreen pixel
`(2, 0)`, which is 10: the `uint16_t` destination pointer moves by `2 * dx`
bytes and the one `memmove` of `(W - dx) * H` bytes ignores the row pitch. -/
theorem updateScreen_shake_right_not_translated :
    (shakeScreen (demoSystem 4 2 rampBuf 9) 1 0).wf ∧
    (shakeScreen (demoSystem 4 2 rampBuf 9) 1 0).screenWf ∧
    (updateScreen (shakeScreen (demoSystem 4 2 rampBuf 9) 1 0) false).1 = Status.ok ∧
    (updateScreen (shakeScreen (demoSystem 4 2 rampBuf 9) 1 0) false).2.screenPixel 1 0 = 0 ∧
    (shakeScreen (demoSystem 4 2 rampBuf 9) 1 0).offscreenPixel 0 0 = 8 ∧
    (updateScreen (shakeScreen (demoSystem 4 2 rampBuf 9) 1 0) false).2.screenPixel 0 1 = 10 ∧
    (shakeScreen (demoSystem 4 2 rampBuf 9) 1 0).offscreenPixel 2 0 = 10 := by
  decide

/-- C7, the code at a failing input: a 4 by 2 screen shaken up by one row
(`dy = -1`) over a surface whose bytes all hold 9.  `updateScreen` ends
normally and destination row 0 is offscreen row 1, but the exposed destination
row 1 still holds 9 in every column: `clearScreen` is called with the height
`_shakeDy = -1` and its loop does not run. -/
theorem updateScreen_shake_up_stale :
    (shakeScreen (demoSystem 4 2 rampBuf 9) 0 (-1)).wf ∧
    (shakeScreen (demoSystem 4 2 rampBuf 9) 0 (-1)).screenWf ∧
    (updateScreen (shakeScreen (demoSystem 4 2 rampBuf 9) 0 (-1)) false).1 = Status.ok ∧
    (∀ px : Fin 4,
      (updateScreen (shakeScreen (demoSystem 4 2 rampBuf 9) 0 (-1)) false).2.screenPixel
          (px.val : Int) 0
        = (shakeScreen (demoSystem 4 2 rampBuf 9) 0 (-1)).offscreenPixel (px.val : Int) 1) ∧
    (∀ px : Fin 4,
      (updateScreen (shakeScreen (demoSystem 4 2 rampBuf 9) 0 (-1)) false).2.screenPixel
          (px.val : Int) 1
        = 9) := by
  decide

/-! ## Audio bridge -/

/-- C10 as stated fails: with no callback registered, a pull of 4 bytes into a
4-byte device buffer does not complete normally; `mixAudioS16` calls
`_audioCb.proc` without testing it. -/
theorem mixAudioS16_null_callback_faults :
    (demoSystem 4 2 rampBuf 9)._audioCb.proc = none ∧
    (4 : Int) ≤ (demoAudioBuf.size : Int) ∧
    (mixAudioS16 (demoSystem 4 2 rampBuf 9) demoAudioBuf 4).1 ≠ Status.ok :=
  ⟨rfl, by decide, by decide⟩

/-- C10 as amended: for every requested length `len` that fits the device
buffer, `mixAudioS16` first zero-fills the `len` bytes and then calls the
callback function unconditionally.  With a registered callback it completes
normally and the buffer is what the callback makes of the zero-filled buffer;
with no callback (null function) it stops on the faulting call, the buffer
holding `len` zero bytes followed by what it held before. -/
theorem mixAudioS16_zero_fill (param : System_SDL) (buf : Mem) (len : Int)
    (h0 : 0 ≤ len) (h31 : len < 2 ^ 31) (hl : len ≤ buf.size) :
    (∀ proc, param._audioCb.proc = some proc →
      (mixAudioS16 param buf len).1 = Status.ok ∧
      (mixAudioS16 param buf len).2 = proc param._audioCb.userdata
        { buf with data := fun a => if 0 ≤ a ∧ a < len then 0 else buf.data a }
        (Int.tdiv len 2)) ∧
    (param._audioCb.proc = none →
      (mixAudioS16 param buf len).1 = Status.fault ∧
      (mixAudioS16 param buf len).2.size = buf.size ∧
      (∀ a, 0 ≤ a → a < len → (mixAudioS16 param buf len).2.data a = 0) ∧
      (∀ a, ¬ (0 ≤ a ∧ a < len) → (mixAudioS16 param buf len).2.data a = buf.data a)) := by
  have hn : (toSizeT len : Int) = len := toSizeT_eq len h0 (by omega)
  have hin : (0 : Int) ≤ 0 ∧ 0 + (toSizeT len : Int) ≤ (buf.size : Int) := by
    constructor <;> omega
  have hms := memset_eq buf 0 0 (toSizeT len) hin
  have hz : (fun a : Int => if 0 ≤ a ∧ a < 0 + (toSizeT len : Int) then (0 : Byte) else buf.data a)
      = fun a => if 0 ≤ a ∧ a < len then 0 else buf.data a := by
    funext a
    rw [hn, zero_add]
  rw [hz] at hms
  constructor
  · intro proc hproc
    simp only [mixAudioS16, hms, hproc]
    exact ⟨trivial, trivial⟩
  · intro hproc
    simp only [mixAudioS16, hms, hproc]
    refine ⟨trivial, trivial, ?_, ?_⟩
    · intro a ha0 hal
      rw [if_pos ⟨ha0, hal⟩]
    · intro a ha
      rw [if_neg ha]

/-- A witness of C10 as amended: a pull of 4 bytes into a 4-byte buffer, here
with a registered callback that writes no sample. -/
theorem mixAudioS16_zero_fill_witness :
    (0 : Int) ≤ 4 ∧ (4 : Int) < 2 ^ 31 ∧ (4 : Int) ≤ (demoAudioBuf.size : Int) ∧
    ((∀ proc, quietSystem._audioCb.proc = some proc →
      (mixAudioS16 quietSystem demoAudioBuf 4).1 = Status.ok ∧
      (mixAudioS16 quietSystem demoAudioBuf 4).2 = proc quietSystem._audioCb.userdata
        { demoAudioBuf with
          data := fun a => if 0 ≤ a ∧ a < 4 then 0 else demoAudioBuf.data a }
        (Int.tdiv 4 2)) ∧
    (quietSystem._audioCb.proc = none →
      (mixAudioS16 quietSystem demoAudioBuf 4).1 = Status.fault ∧
      (mixAudioS16 quietSystem demoAudioBuf 4).2.size = demoAudioBuf.size ∧
      (∀ a, 0 ≤ a → a < 4 → (mixAudioS16 quietSystem demoAudioBuf 4).2.data a = 0) ∧
      (∀ a, ¬ (0 ≤ a ∧ a < 4) →
        (mixAudioS16 quietSystem demoAudioBuf 4).2.data a = demoAudioBuf.data a))) :=
  ⟨by decide, by decide, by decide,
    mixAudioS16_zero_fill quietSystem demoAudioBuf 4 (by decide) (by decide) (by decide)⟩
/-! ## Input mapper -/

/-- The two ways the search loop of `addKeyMapping` ends: without finding the
key, or at the first entry holding it, whose mask it overwrites. -/
theorem addKeyMappingLoop_cases (key : Int) (mask : Byte) :
    ∀ (n : Nat) (i0 : Int) (t : Int → KeyMapping),
      (addKeyMappingLoop key mask n i0 t = none ∧
        ∀ j, i0 ≤ j → j < i0 + n → (t j).keyCode ≠ key) ∨
      (∃ i, i0 ≤ i ∧ i < i0 + n ∧ (t i).keyCode = key ∧
        (∀ j, i0 ≤ j → j < i → (t j).keyCode ≠ key) ∧
        addKeyMappingLoop key mask n i0 t =
          some (fun j => if j = i then { t i with mask := (mask.val : Int) } else t j)) := by
  intro n
  induction n with
  | zero =>
    intro i0 t
    left
    exact ⟨rfl, fun j h1 h2 => by omega⟩
  | succ n ih =>
    intro i0 t
    by_cases hk : (t i0).keyCode = key
    · right
      refine ⟨i0, le_refl _, by push_cast; omega, hk, fun j h1 h2 => by omega, ?_⟩
      simp only [addKeyMappingLoop, if_pos hk]
    · rcases ih (i0 + 1) t with ⟨h1, h2⟩ | ⟨i, h1, h2, h3, h4, h5⟩
      · left
        refine ⟨by simp only [addKeyMappingLoop, if_neg hk, h1], fun j hj1 hj2 => ?_⟩
        by_cases hj : j = i0
        · subst hj; exact hk
        · exact h2 j (by omega) (by push_cast at hj2; omega)
      · right
        refine ⟨i, by omega, by push_cast; omega, h3, fun j hj1 hj2 => ?_, ?_⟩
        · by_cases hj : j = i0
          · subst hj; exact hk
          · exact h4 j (by omega) hj2
        · simp only [addKeyMappingLoop, if_neg hk, h5]

theorem addKeyMapping_full (u : System_SDL) (key : Int) (mask : Byte)
    (h : ¬ u._keyMappingsCount < kKeyMappingsSize) : addKeyMapping u key mask = u := by
  simp only [addKeyMapping, if_neg h]

theorem addKeyMapping_found (u : System_SDL) (key : Int) (mask : Byte) (i : Int)
    (hlt : u._keyMappingsCount < kKeyMappingsSize) (hi0 : 0 ≤ i) (hi : i < u._keyMappingsCount)
    (hk : (u._keyMappings i).keyCode = key)
    (hfirst : ∀ j, 0 ≤ j → j < i → (u._keyMappings j).keyCode ≠ key) :
    addKeyMapping u key mask = { u with
      _keyMappings := fun j =>
        if j = i then { u._keyMappings i with mask := (mask.val : Int) } else u._keyMappings j } := by
  rcases addKeyMappingLoop_cases key mask u._keyMappingsCount.toNat 0 u._keyMappings with
    ⟨_, h2⟩ | ⟨i', h1, h2, h3, h4, h5⟩
  · exact absurd hk (h2 i hi0 (by omega))
  · have : i' = i := by
      rcases lt_trichotomy i' i with hlt' | heq | hgt
      · exact absurd h3 (hfirst i' h1 hlt')
      · exact heq
      · exact absurd hk (h4 i hi0 hgt)
    subst this
    simp only [addKeyMapping, if_pos hlt, h5]

theorem addKeyMapping_absent (u : System_SDL) (key : Int) (mask : Byte)
    (hlt : u._keyMappingsCount < kKeyMappingsSize) (h0 : 0 ≤ u._keyMappingsCount)
    (habs : ∀ j, 0 ≤ j → j < u._keyMappingsCount → (u._keyMappings j).keyCode ≠ key) :
    addKeyMapping u key mask = { u with
      _keyMappings := fun j =>
        if j = u._keyMappingsCount then { keyCode := key, mask := (mask.val : Int) }
        else u._keyMappings j
      _keyMappingsCount := u._keyMappingsCount + 1 } := by
  rcases addKeyMappingLoop_cases key mask u._keyMappingsCount.toNat 0 u._keyMappings with
    ⟨h1, _⟩ | ⟨i, h1, h2, h3, _, _⟩
  · simp only [addKeyMapping, if_pos hlt, h1]
  · exact absurd h3 (habs i h1 (by omega))

/-- One `addKeyMapping` call on a table that satisfies the invariant: the
invariant is kept, the count grows by 0 or 1, the keys of the entries in use do
not change, entries with another key are untouched and, when the table was not
full, the key is then registered with the mask. -/
theorem addKeyMapping_step (u : System_SDL) (key : Int) (mask : Byte) (h : u.keysOk) :
    (addKeyMapping u key mask).keysOk ∧
    ((addKeyMapping u key mask)._keyMappingsCount = u._keyMappingsCount ∨
      (addKeyMapping u key mask)._keyMappingsCount = u._keyMappingsCount + 1) ∧
    (∀ i, 0 ≤ i → i < u._keyMappingsCount → (u._keyMappings i).keyCode ≠ key →
      (addKeyMapping u key mask)._keyMappings i = u._keyMappings i) ∧
    (u._keyMappingsCount < kKeyMappingsSize →
      ∃ i, 0 ≤ i ∧ i < (addKeyMapping u key mask)._keyMappingsCount ∧
        ((addKeyMapping u key mask)._keyMappings i).keyCode = key ∧
        ((addKeyMapping u key mask)._keyMappings i).mask = (mask.val : Int)) := by
  obtain ⟨h0, h20, hd⟩ := h
  by_cases hlt : u._keyMappingsCount < kKeyMappingsSize
  · by_cases hex : ∃ i, 0 ≤ i ∧ i < u._keyMappingsCount ∧ (u._keyMappings i).keyCode = key
    · obtain ⟨i, hi0, hi, hk⟩ := hex
      have hfirst : ∀ j, 0 ≤ j → j < i → (u._keyMappings j).keyCode ≠ key := by
        intro j hj0 hji hjk
        have := hd j i hj0 (by omega) hi0 hi (hjk.trans hk.symm)
        omega
      rw [addKeyMapping_found u key mask i hlt hi0 hi hk hfirst]
      have hkey : ∀ j, ((fun j => if j = i then { u._keyMappings i with mask := (mask.val : Int) }
          else u._keyMappings j) j).keyCode = (u._keyMappings j).keyCode := by
        intro j
        by_cases hj : j = i
        · subst hj; simp only [if_true]
        · simp only [if_neg hj]
      refine ⟨⟨h0, h20, ?_⟩, Or.inl rfl, ?_, fun _ => ⟨i, hi0, hi, ?_, ?_⟩⟩
      · intro a b ha0 ha hb0 hb hab
        have e1 := hkey a
        have e2 := hkey b
        exact hd a b ha0 ha hb0 hb (by rw [← e1, ← e2]; exact hab)
      · intro j hj0 hj hjk
        have hji : j ≠ i := fun e => hjk (by rw [e]; exact hk)
        show (if j = i then { u._keyMappings i with mask := (mask.val : Int) }
          else u._keyMappings j) = u._keyMappings j
        rw [if_neg hji]
      · show (if i = i then { u._keyMappings i with mask := (mask.val : Int) }
          else u._keyMappings i).keyCode = key
        rw [if_pos rfl]; exact hk
      · show (if i = i then { u._keyMappings i with mask := (mask.val : Int) }
          else u._keyMappings i).mask = (mask.val : Int)
        rw [if_pos rfl]
    · have habs : ∀ j, 0 ≤ j → j < u._keyMappingsCount → (u._keyMappings j).keyCode ≠ key :=
        fun j hj0 hj hjk => hex ⟨j, hj0, hj, hjk⟩
      rw [addKeyMapping_absent u key mask hlt h0 habs]
      have hlt' : u._keyMappingsCount < 20 := hlt
      have h20' : u._keyMappingsCount + 1 ≤ kKeyMappingsSize := by
        show u._keyMappingsCount + 1 ≤ 20
        omega
      refine ⟨⟨by show 0 ≤ u._keyMappingsCount + 1; omega, h20', ?_⟩, Or.inr rfl, ?_,
        fun _ => ⟨u._keyMappingsCount, h0, by show u._keyMappingsCount < u._keyMappingsCount + 1; omega,
          ?_, ?_⟩⟩
      · intro a b ha0 ha hb0 hb hab
        have ha' : a < u._keyMappingsCount + 1 := ha
        have hb' : b < u._keyMappingsCount + 1 := hb
        have hab' : (if a = u._keyMappingsCount then
              ({ keyCode := key, mask := (mask.val : Int) } : KeyMapping)
            else u._keyMappings a).keyCode
            = (if b = u._keyMappingsCount then
              ({ keyCode := key, mask := (mask.val : Int) } : KeyMapping)
            else u._keyMappings b).keyCode := hab
        by_cases hac : a = u._keyMappingsCount
        · by_cases hbc : b = u._keyMappingsCount
          · omega
          · rw [if_pos hac, if_neg hbc] at hab'
            exact absurd hab'.symm (habs b hb0 (by omega))
        · by_cases hbc : b = u._keyMappingsCount
          · rw [if_neg hac, if_pos hbc] at hab'
            exact absurd hab' (habs a ha0 (by omega))
          · rw [if_neg hac, if_neg hbc] at hab'
            exact hd a b ha0 (by omega) hb0 (by omega) hab'
      · intro j hj0 hj _
        have hjc : j ≠ u._keyMappingsCount := by omega
        show (if j = u._keyMappingsCount then
            ({ keyCode := key, mask := (mask.val : Int) } : KeyMapping)
          else u._keyMappings j) = u._keyMappings j
        rw [if_neg hjc]
      · show (if u._keyMappingsCount = u._keyMappingsCount then
            ({ keyCode := key, mask := (mask.val : Int) } : KeyMapping)
          else u._keyMappings u._keyMappingsCount).keyCode = key
        rw [if_pos rfl]
      · show (if u._keyMappingsCount = u._keyMappingsCount then
            ({ keyCode := key, mask := (mask.val : Int) } : KeyMapping)
          else u._keyMappings u._keyMappingsCount).mask = (mask.val : Int)
        rw [if_pos rfl]
  · rw [addKeyMapping_full u key mask hlt]
    exact ⟨⟨h0, h20, hd⟩, Or.inl rfl, fun _ _ _ _ => rfl, fun hc => absurd hc hlt⟩

theorem resetKeyMappings_keysOk (s : System_SDL) : (resetKeyMappings s).keysOk := by
  refine ⟨le_refl _, (by decide : (0 : Int) ≤ kKeyMappingsSize), ?_⟩
  intro i j hi0 hi
  have : i < 0 := hi
  omega

theorem addKeyMappings_keysOk (calls : List (Int × Byte)) :
    ∀ u : System_SDL, u.keysOk → (addKeyMappings u calls).keysOk := by
  induction calls with
  | nil => intro u h; exact h
  | cons c rest ih =>
    intro u h
    exact ih (addKeyMapping u c.1 c.2) (addKeyMapping_step u c.1 c.2 h).1
/-- C19. Key table invariant: on every table reached from the reset table of
`setupDefaultKeyMappings` (count 0) by a sequence of `addKeyMapping` calls,
`0 ≤ count ≤ 20` and the key codes of the first `count` entries are pairwise
distinct; one more call changes the count by 0 or +1 and leaves every entry in
use whose key differs from the argument key as it was. -/
theorem keyTable_invariant (s : System_SDL) (calls : List (Int × Byte)) (key : Int)
    (mask : Byte) :
    0 ≤ (addKeyMappings (resetKeyMappings s) calls)._keyMappingsCount ∧
    (addKeyMappings (resetKeyMappings s) calls)._keyMappingsCount ≤ 20 ∧
    (∀ i j, 0 ≤ i → i < (addKeyMappings (resetKeyMappings s) calls)._keyMappingsCount →
      0 ≤ j → j < (addKeyMappings (resetKeyMappings s) calls)._keyMappingsCount →
      ((addKeyMappings (resetKeyMappings s) calls)._keyMappings i).keyCode
        = ((addKeyMappings (resetKeyMappings s) calls)._keyMappings j).keyCode → i = j) ∧
    ((addKeyMapping (addKeyMappings (resetKeyMappings s) calls) key mask)._keyMappingsCount
        = (addKeyMappings (resetKeyMappings s) calls)._keyMappingsCount ∨
      (addKeyMapping (addKeyMappings (resetKeyMappings s) calls) key mask)._keyMappingsCount
        = (addKeyMappings (resetKeyMappings s) calls)._keyMappingsCount + 1) ∧
    (∀ i, 0 ≤ i → i < (addKeyMappings (resetKeyMappings s) calls)._keyMappingsCount →
      ((addKeyMappings (resetKeyMappings s) calls)._keyMappings i).keyCode ≠ key →
      (addKeyMapping (addKeyMappings (resetKeyMappings s) calls) key mask)._keyMappings i
        = (addKeyMappings (resetKeyMappings s) calls)._keyMappings i) := by
  have hT := addKeyMappings_keysOk calls (resetKeyMappings s) (resetKeyMappings_keysOk s)
  obtain ⟨_, h2, h3, _⟩ :=
    addKeyMapping_step (addKeyMappings (resetKeyMappings s) calls) key mask hT
  exact ⟨hT.1, hT.2.1, hT.2.2, h2, h3⟩

/-- C11 as stated fails on a full table: with the keys `0 .. 19` registered
(count 20), registering key 0 with mask 5 and then with mask 7 leaves the count
at 20 and no entry holds the mask 7; the entry of key 0 keeps its mask 1. -/
theorem addKeyMapping_full_table_keeps_mask :
    fullKeyTable._keyMappingsCount = 20 ∧
    (addKeyMapping (addKeyMapping fullKeyTable 0 5) 0 7)._keyMappingsCount = 20 ∧
    ((addKeyMapping (addKeyMapping fullKeyTable 0 5) 0 7)._keyMappings 0).keyCode = 0 ∧
    ((addKeyMapping (addKeyMapping fullKeyTable 0 5) 0 7)._keyMappings 0).mask = 1 ∧
    (∀ i : Fin 20,
      ((addKeyMapping (addKeyMapping fullKeyTable 0 5) 0 7)._keyMappings (i.val : Int)).mask
        ≠ 7) := by
  set_option maxRecDepth 8000 in decide

/-- C11 as amended: on every table reached from the reset table by
`addKeyMapping` calls, if the table holds fewer than 20 entries after
`addKeyMapping(k, m1)`, then after `addKeyMapping(k, m2)` it holds exactly one
entry whose key is `k`, and the mask of that entry is `m2`.  A table that holds
20 entries is left as it is by `addKeyMapping`. -/
theorem addKeyMapping_dedup (s : System_SDL) (calls : List (Int × Byte)) (k : Int)
    (m1 m2 : Byte)
    (hroom : (addKeyMapping (addKeyMappings (resetKeyMappings s) calls) k m1)._keyMappingsCount
      < kKeyMappingsSize) :
    (∃ i, 0 ≤ i ∧
      i < (addKeyMapping (addKeyMapping (addKeyMappings (resetKeyMappings s) calls) k m1) k m2)._keyMappingsCount ∧
      ((addKeyMapping (addKeyMapping (addKeyMappings (resetKeyMappings s) calls) k m1) k m2)._keyMappings i).keyCode = k ∧
      ((addKeyMapping (addKeyMapping (addKeyMappings (resetKeyMappings s) calls) k m1) k m2)._keyMappings i).mask = (m2.val : Int) ∧
      ∀ j, 0 ≤ j →
        j < (addKeyMapping (addKeyMapping (addKeyMappings (resetKeyMappings s) calls) k m1) k m2)._keyMappingsCount →
        ((addKeyMapping (addKeyMapping (addKeyMappings (resetKeyMappings s) calls) k m1) k m2)._keyMappings j).keyCode = k →
        j = i) ∧
    (∀ calls' : List (Int × Byte),
      (addKeyMappings (resetKeyMappings s) calls')._keyMappingsCount = 20 →
      addKeyMapping (addKeyMappings (resetKeyMappings s) calls') k m2
        = addKeyMappings (resetKeyMappings s) calls') := by
  have hT := addKeyMappings_keysOk calls (resetKeyMappings s) (resetKeyMappings_keysOk s)
  have hT1 := (addKeyMapping_step (addKeyMappings (resetKeyMappings s) calls) k m1 hT).1
  obtain ⟨hT2, hc2, _, hreg⟩ :=
    addKeyMapping_step (addKeyMapping (addKeyMappings (resetKeyMappings s) calls) k m1) k m2 hT1
  constructor
  · obtain ⟨i, hi0, hi, hik, him⟩ := hreg hroom
    refine ⟨i, hi0, hi, hik, him, ?_⟩
    intro j hj0 hj hjk
    exact hT2.2.2 j i hj0 hj hi0 hi (hjk.trans hik.symm)
  · intro calls' hfull
    apply addKeyMapping_full
    rw [hfull]
    decide

/-- A witness of C11 as amended: key 7 registered twice, with masks 1 and 2, on
a table that holds the keys 3 and 4. -/
theorem addKeyMapping_dedup_witness :
    (addKeyMapping (addKeyMappings (resetKeyMappings (demoSystem 4 2 rampBuf 9)) [(3, 1), (4, 2)])
      7 1)._keyMappingsCount < kKeyMappingsSize ∧
    ((∃ i, 0 ≤ i ∧
      i < (addKeyMapping (addKeyMapping (addKeyMappings (resetKeyMappings (demoSystem 4 2 rampBuf 9)) [(3, 1), (4, 2)]) 7 1) 7 2)._keyMappingsCount ∧
      ((addKeyMapping (addKeyMapping (addKeyMappings (resetKeyMappings (demoSystem 4 2 rampBuf 9)) [(3, 1), (4, 2)]) 7 1) 7 2)._keyMappings i).keyCode = 7 ∧
      ((addKeyMapping (addKeyMapping (addKeyMappings (resetKeyMappings (demoSystem 4 2 rampBuf 9)) [(3, 1), (4, 2)]) 7 1) 7 2)._keyMappings i).mask = (((2 : Byte).val : Nat) : Int) ∧
      ∀ j, 0 ≤ j →
        j < (addKeyMapping (addKeyMapping (addKeyMappings (resetKeyMappings (demoSystem 4 2 rampBuf 9)) [(3, 1), (4, 2)]) 7 1) 7 2)._keyMappingsCount →
        ((addKeyMapping (addKeyMapping (addKeyMappings (resetKeyMappings (demoSystem 4 2 rampBuf 9)) [(3, 1), (4, 2)]) 7 1) 7 2)._keyMappings j).keyCode = 7 →
        j = i) ∧
    (∀ calls' : List (Int × Byte),
      (addKeyMappings (resetKeyMappings (demoSystem 4 2 rampBuf 9)) calls')._keyMappingsCount = 20 →
      addKeyMapping (addKeyMappings (resetKeyMappings (demoSystem 4 2 rampBuf 9)) calls') 7 2
        = addKeyMappings (resetKeyMappings (demoSystem 4 2 rampBuf 9)) calls')) :=
  ⟨by decide,
    addKeyMapping_dedup (demoSystem 4 2 rampBuf 9) [(3, 1), (4, 2)] 7 1 2 (by decide)⟩
/-- The low 8 bits of an `int`, bit by bit. -/
theorem intToByte_testBit (n : Int) (b : Nat) (hb : b < 8) :
    (intToByte n).val.testBit b = Int.testBit n b := by
  have hp : (2 : Nat) ^ 8 = 256 := by norm_num
  cases n with
  | ofNat m =>
    have h1 : (intToByte (Int.ofNat m)).val = m % 256 := by
      unfold intToByte
      have : Int.ofNat m = (m : Int) := rfl
      simp only [this]
      omega
    rw [h1, ← hp, Nat.testBit_mod_two_pow]
    simp only [hb, decide_True, Bool.true_and]
    rfl
  | negSucc m =>
    have h1 : (intToByte (Int.negSucc m)).val = 256 - (m % 256 + 1) := by
      unfold intToByte
      simp only [Int.negSucc_eq]
      omega
    have h2 : m % 2 ^ 8 < 2 ^ 8 := Nat.mod_lt _ (by norm_num)
    rw [h1, ← hp, Nat.testBit_two_pow_sub_succ h2, Nat.testBit_mod_two_pow]
    simp only [hb, decide_True, Bool.true_and]
    rfl

theorem testBit_natCast_int (v b : Nat) : Int.testBit (v : Int) b = v.testBit b := rfl

/-- What the loop of `updateKeys` makes of bit `b` of the mask: a bit that none
of the mappings visited holds keeps its value, and a bit held by a mapping after
which no visited mapping holds it is set exactly when the key of that mapping is
held. -/
theorem updateKeysLoop_bits (km : Int → KeyMapping) (keyState : Int → Byte) (b : Nat)
    (hb : b < 8) :
    ∀ (k : Nat) (i0 : Int) (m : Byte),
      ((∀ j, i0 ≤ j → j < i0 + k → Int.testBit (km j).mask b = false) →
        (updateKeysLoop km keyState k i0 m).val.testBit b = m.val.testBit b) ∧
      (∀ i, i0 ≤ i → i < i0 + k → Int.testBit (km i).mask b = true →
        (∀ j, i < j → j < i0 + k → Int.testBit (km j).mask b = false) →
        (updateKeysLoop km keyState k i0 m).val.testBit b
          = decide (keyState (km i).keyCode ≠ 0)) := by
  intro k
  induction k with
  | zero =>
    intro i0 m
    exact ⟨fun _ => rfl, fun i h1 h2 => by omega⟩
  | succ k ih =>
    intro i0 m
    have hor : (intToByte (Int.lor (m.val : Int) (km i0).mask)).val.testBit b
        = (m.val.testBit b || Int.testBit (km i0).mask b) := by
      rw [intToByte_testBit _ b hb, Int.testBit_lor, testBit_natCast_int]
    have hand : (intToByte (Int.land (m.val : Int) (Int.lnot (km i0).mask))).val.testBit b
        = (m.val.testBit b && !Int.testBit (km i0).mask b) := by
      rw [intToByte_testBit _ b hb, Int.testBit_land, Int.testBit_lnot, testBit_natCast_int]
    constructor
    · intro hnone
      have h0 := hnone i0 (le_refl _) (by push_cast; omega)
      have hrest : ∀ j, i0 + 1 ≤ j → j < i0 + 1 + (k : Int) →
          Int.testBit (km j).mask b = false :=
        fun j h1 h2 => hnone j (by omega) (by push_cast; omega)
      by_cases hheld : keyState (km i0).keyCode ≠ 0
      · simp only [updateKeysLoop, if_pos hheld]
        rw [(ih (i0 + 1) _).1 hrest, hor, h0, Bool.or_false]
      · simp only [updateKeysLoop, if_neg hheld]
        rw [(ih (i0 + 1) _).1 hrest, hand, h0, Bool.not_false, Bool.and_true]
    · intro i hi0 hi hbit hlater
      by_cases hii : i = i0
      · subst hii
        have hrest : ∀ j, i + 1 ≤ j → j < i + 1 + (k : Int) →
            Int.testBit (km j).mask b = false :=
          fun j h1 h2 => hlater j (by omega) (by push_cast; omega)
        by_cases hheld : keyState (km i).keyCode ≠ 0
        · simp only [updateKeysLoop, if_pos hheld]
          rw [(ih (i + 1) _).1 hrest, hor, hbit, Bool.or_true]
          exact (decide_eq_true hheld).symm
        · simp only [updateKeysLoop, if_neg hheld]
          rw [(ih (i + 1) _).1 hrest, hand, hbit, Bool.not_true, Bool.and_false]
          exact (decide_eq_false hheld).symm
      · have hlater' : ∀ j, i < j → j < i0 + 1 + (k : Int) →
            Int.testBit (km j).mask b = false :=
          fun j h1 h2 => hlater j h1 (by push_cast; omega)
        by_cases hheld : keyState (km i0).keyCode ≠ 0
        · simp only [updateKeysLoop, if_pos hheld]
          exact (ih (i0 + 1) _).2 i (by omega) (by push_cast at hi; omega) hbit hlater'
        · simp only [updateKeysLoop, if_neg hheld]
          exact (ih (i0 + 1) _).2 i (by omega) (by push_cast at hi; omega) hbit hlater'

/-- C12 as stated fails when two mappings share an action bit: in a table that
maps key 1 and key 2 to the mask 1, with key 1 held and key 2 not held, the
first mapping holds bit 0 and its key is held, yet bit 0 of the mask is clear
after `updateKeys`. -/
theorem updateKeys_shared_bit_cleared :
    sharedBitTable._keyMappingsCount = 2 ∧
    key1Held (sharedBitTable._keyMappings 0).keyCode ≠ 0 ∧
    Int.testBit (sharedBitTable._keyMappings 0).mask 0 = true ∧
    (updateKeys sharedBitTable { prevMask := 0, mask := 0, quit := false } key1Held).mask.val.testBit 0
      = false := by
  decide!

/-- C12 as amended: for every key mapping table, key-state snapshot and prior
mask, after `updateKeys` each action bit of a mapping that no later mapping of
the table holds is set in `mask` if the key of that mapping is held and clear
if it is not; a bit that belongs to no mapping keeps its prior value. -/
theorem updateKeys_mask_bits (s : System_SDL) (inp : PlayerInput) (keyState : Int → Byte)
    (b : Fin 8) :
    (∀ i, 0 ≤ i → i < s._keyMappingsCount → Int.testBit (s._keyMappings i).mask b.val = true →
      (∀ j, i < j → j < s._keyMappingsCount →
        Int.testBit (s._keyMappings j).mask b.val = false) →
      ((keyState (s._keyMappings i).keyCode ≠ 0 →
          (updateKeys s inp keyState).mask.val.testBit b.val = true) ∧
        (keyState (s._keyMappings i).keyCode = 0 →
          (updateKeys s inp keyState).mask.val.testBit b.val = false))) ∧
    ((∀ j, 0 ≤ j → j < s._keyMappingsCount →
        Int.testBit (s._keyMappings j).mask b.val = false) →
      (updateKeys s inp keyState).mask.val.testBit b.val = inp.mask.val.testBit b.val) := by
  obtain ⟨l1, l2⟩ := updateKeysLoop_bits s._keyMappings keyState b.val b.isLt
    s._keyMappingsCount.toNat 0 inp.mask
  constructor
  · intro i hi0 hi hbit hlater
    have h := l2 i hi0 (by omega) hbit (fun j h1 h2 => hlater j h1 (by omega))
    have hres : (updateKeys s inp keyState).mask.val.testBit b.val
        = decide (keyState (s._keyMappings i).keyCode ≠ 0) := h
    rw [hres]
    exact ⟨fun hh => decide_eq_true hh, fun hh => decide_eq_false (fun hne => hne hh)⟩
  · intro hnone
    exact l1 (fun j h1 h2 => hnone j h1 (by omega))

/-- A witness of C12 as amended: the table of two mappings that share bit 0,
with key 1 held; the last mapping that holds bit 0 is the one of key 2. -/
theorem updateKeys_mask_bits_witness :
    (0 : Int) ≤ 1 ∧ (1 : Int) < sharedBitTable._keyMappingsCount ∧
    Int.testBit (sharedBitTable._keyMappings 1).mask 0 = true ∧
    key1Held (sharedBitTable._keyMappings 1).keyCode = 0 ∧
    (updateKeys sharedBitTable { prevMask := 0, mask := 1, quit := false } key1Held).mask.val.testBit
      ((0 : Fin 8).val) = false :=
  ⟨by decide, by decide, by decide, by decide,
    ((updateKeys_mask_bits sharedBitTable { prevMask := 0, mask := 1, quit := false } key1Held
      0).1 1 (by decide) (by decide) (by decide)
      (fun j h1 h2 => by
        have h3 : j < 2 := h2
        omega)).2 (by decide)⟩

/-- C13. Edge-detection snapshot: each `updateKeys` call assigns `prevMask` the
value `mask` had before the call, so in every sequence of `updateKeys` calls
the `prevMask` after the last call equals the `mask` after the call before
it. -/
theorem updateKeys_prevMask (s : System_SDL) (inp : PlayerInput)
    (snapshots : List (Int → Byte)) (keyState : Int → Byte) :
    (updateKeys s inp keyState).prevMask = inp.mask ∧
    (updateKeysSeq s inp (snapshots ++ [keyState])).prevMask
      = (updateKeysSeq s inp snapshots).mask := by
  refine ⟨rfl, ?_⟩
  unfold updateKeysSeq
  rw [List.foldl_append]
  rfl
/-! ## Shake offset -/

/-- C15 as stated fails: on a 4 by 2 screen the allocation viewed as a 6 by 4
array has its row 2, column 0 at offset `2 * (4 + 2) + 0 = 12`; the in-bounds
call `fillRect(1, 1, 1, 1, 200)` writes the window pixel `(1, 1)` at offset
`(4 + 2) + 1 + 1 * 4 + 1 = 12` and changes that border byte from 13 to 200,
because the rows of the window are `W` bytes apart, not `W + 2`.  The in-bounds
`copyRect(1, 1, 1, 1, buf, 1)` changes the same byte. -/
theorem fillRect_overwrites_border_column :
    (demoSystem 4 2 rampBuf 9).wf ∧
    (0 : Int) ≤ 1 ∧ (1 : Int) + 1 ≤ (demoSystem 4 2 rampBuf 9)._screenW ∧
    (1 : Int) + 1 ≤ (demoSystem 4 2 rampBuf 9)._screenH ∧
    (fillRect (demoSystem 4 2 rampBuf 9) 1 1 1 1 200).1 = Status.ok ∧
    (demoSystem 4 2 rampBuf 9)._offscreenBase.data (2 * (4 + 2) + 0) = 13 ∧
    (fillRect (demoSystem 4 2 rampBuf 9) 1 1 1 1 200).2._offscreenBase.data (2 * (4 + 2) + 0)
      = 200 ∧
    (copyRect (demoSystem 4 2 rampBuf 9) 1 1 1 1 (fun _ => 77) 1).1 = Status.ok ∧
    (copyRect (demoSystem 4 2 rampBuf 9) 1 1 1 1 (fun _ => 77) 1).2._offscreenBase.data
        (2 * (4 + 2) + 0)
      = 77 := by
  decide

/-- C15 as amended: every `copyRect` or `fillRect` call with `0 ≤ x`, `0 ≤ y`,
`0 ≤ w`, `0 ≤ h`, `x + w ≤ W`, `y + h ≤ H` ends normally and leaves unchanged
every byte of the allocation outside the `W * H` consecutive bytes that start
at offset `(W + 2) + 1`: the `W + 3` bytes before them (row 0 and the first
byte of row 1 of the `(W + 2)` by `(H + 2)` view) and all the bytes after
them. -/
theorem rect_writes_stay_in_window (s : System_SDL) (hs : s.wf) (x y w h : Int)
    (buf : Int → Byte) (pitch : Int) (color : Byte)
    (hx : 0 ≤ x) (hy : 0 ≤ y) (hw : 0 ≤ w) (hh : 0 ≤ h)
    (hxw : x + w ≤ s._screenW) (hyh : y + h ≤ s._screenH) :
    (copyRect s x y w h buf pitch).1 = Status.ok ∧
    (fillRect s x y w h color).1 = Status.ok ∧
    ∀ a, (a < (s._screenW + 2) + 1 ∨ (s._screenW + 2) + 1 + s._screenW * s._screenH ≤ a) →
      (copyRect s x y w h buf pitch).2._offscreenBase.data a = s._offscreenBase.data a ∧
      (fillRect s x y w h color).2._offscreenBase.data a = s._offscreenBase.data a := by
  obtain ⟨hW0, hW31, _, hH31, hsz, hoff⟩ := hs
  have hk : ((h.toNat : Nat) : Int) = h := Int.toNat_of_nonneg hh
  obtain ⟨c1, _, _, c4⟩ := copyRectLoop_spec s x w buf pitch hW0 hW31 hx hw hxw hoff
    h.toNat y 0 s._offscreenBase hy (by omega) hsz
  obtain ⟨f1, _, _, f4⟩ := copyRectLoop_spec s x w (fun _ => color) 0 hW0 hW31 hx hw hxw hoff
    h.toNat y 0 s._offscreenBase hy (by omega) hsz
  have hass : x ≥ 0 ∧ wrapInt (x + w) ≤ s._screenW ∧ y ≥ 0 ∧ wrapInt (y + h) ≤ s._screenH := by
    rw [wrapInt_eq (x + w) (by omega) (by omega), wrapInt_eq (y + h) (by omega) (by omega)]
    exact ⟨hx, hxw, hy, hyh⟩
  simp only [copyRect, fillRect, if_pos hass,
    fillRectLoop_eq_copyRectLoop s x w color h.toNat y 0 s._offscreenBase]
  refine ⟨c1, f1, ?_⟩
  intro a ha
  have hout : ∀ r, y ≤ r → r < y + (h.toNat : Int) →
      ¬ (s._offscreen + r * s._screenW + x ≤ a ∧ a < s._offscreen + r * s._screenW + x + w) := by
    intro r hr1 hr2 hcon
    have h1 : 0 ≤ r * s._screenW := mul_nonneg (by omega) hW0
    have h2 := mul_le_mul_of_nonneg_right (show r + 1 ≤ s._screenH by omega) hW0
    have h3 : (r + 1) * s._screenW = r * s._screenW + s._screenW := by ring
    have h4 : s._screenW * s._screenH = s._screenH * s._screenW := mul_comm _ _
    omega
  exact ⟨c4 a hout, f4 a hout⟩

/-- A witness of C15 as amended: a 2 by 2 rectangle at `(1, 0)` of a 4 by 2
screen. -/
theorem rect_writes_stay_in_window_witness :
    (demoSystem 4 2 rampBuf 9).wf ∧ (0 : Int) ≤ 1 ∧ (0 : Int) ≤ 0 ∧ (0 : Int) ≤ 2 ∧ (0 : Int) ≤ 2 ∧
    (1 : Int) + 2 ≤ (demoSystem 4 2 rampBuf 9)._screenW ∧
    (0 : Int) + 2 ≤ (demoSystem 4 2 rampBuf 9)._screenH ∧
    ((copyRect (demoSystem 4 2 rampBuf 9) 1 0 2 2 rampBuf 5).1 = Status.ok ∧
    (fillRect (demoSystem 4 2 rampBuf 9) 1 0 2 2 200).1 = Status.ok ∧
    ∀ a, (a < ((demoSystem 4 2 rampBuf 9)._screenW + 2) + 1 ∨
        ((demoSystem 4 2 rampBuf 9)._screenW + 2) + 1
          + (demoSystem 4 2 rampBuf 9)._screenW * (demoSystem 4 2 rampBuf 9)._screenH ≤ a) →
      (copyRect (demoSystem 4 2 rampBuf 9) 1 0 2 2 rampBuf 5).2._offscreenBase.data a
        = (demoSystem 4 2 rampBuf 9)._offscreenBase.data a ∧
      (fillRect (demoSystem 4 2 rampBuf 9) 1 0 2 2 200).2._offscreenBase.data a
        = (demoSystem 4 2 rampBuf 9)._offscreenBase.data a) :=
  ⟨by decide, by decide, by decide, by decide, by decide, by decide, by decide,
    rect_writes_stay_in_window (demoSystem 4 2 rampBuf 9) (by decide) 1 0 2 2 rampBuf 5 200
      (by decide) (by decide) (by decide) (by decide) (by decide) (by decide)⟩

/-- C16 as stated fails: on a 4 by 2 screen the arguments `x = 0`, `y = 0`,
`w = -1`, `h = 1` satisfy the asserted condition, the length `w` converted to
`size_t` is `2 ^ 64 - 1`, and the one `memcpy` of `copyRect`, like the one
`memset` of `fillRect`, leaves the 24-byte allocation: a memory fault. -/
theorem rect_negative_width_leaves_allocation :
    (demoSystem 4 2 rampBuf 9).wf ∧
    ((0 : Int) ≥ 0 ∧ (0 : Int) + (-1) ≤ (demoSystem 4 2 rampBuf 9)._screenW ∧
      (0 : Int) ≥ 0 ∧ (0 : Int) + 1 ≤ (demoSystem 4 2 rampBuf 9)._screenH) ∧
    (-2 ^ 31 : Int) ≤ 1 ∧
    toSizeT (-1) = 2 ^ 64 - 1 ∧
    (demoSystem 4 2 rampBuf 9)._offscreenBase.size = 24 ∧
    (memcpy (demoSystem 4 2 rampBuf 9)._offscreenBase
      ((demoSystem 4 2 rampBuf 9)._offscreen + 0 * (demoSystem 4 2 rampBuf 9)._screenW + 0)
      rampBuf (toSizeT (-1))).isNone = true ∧
    (copyRect (demoSystem 4 2 rampBuf 9) 0 0 (-1) 1 rampBuf 0).1 = Status.fault ∧
    (fillRect (demoSystem 4 2 rampBuf 9) 0 0 (-1) 1 200).1 = Status.fault := by
  refine ⟨by decide, by decide, by decide, by decide, by decide, by decide, by decide,
    by decide⟩

/-- C16 as amended: for every `W, H ≥ 0` and `int`s `x, y, w, h` with
`x ≥ 0`, `y ≥ 0`, `w ≥ 0`, `x + w ≤ W`, `y + h ≤ H` (`h` otherwise
unconstrained), `copyRect` and `fillRect` end normally: every `memcpy` and
`memset` they make stays inside the `(W + 2) * (H + 2)`-byte allocation. -/
theorem rect_writes_inside_allocation (s : System_SDL) (hs : s.wf) (x y w h : Int)
    (buf : Int → Byte) (pitch : Int) (color : Byte)
    (hx : x ≥ 0) (hy : y ≥ 0) (hw : w ≥ 0) (hint : -2 ^ 31 ≤ h)
    (hxw : x + w ≤ s._screenW) (hyh : y + h ≤ s._screenH) :
    (copyRect s x y w h buf pitch).1 = Status.ok ∧
    (fillRect s x y w h color).1 = Status.ok := by
  obtain ⟨hW0, hW31, _, hH31, hsz, hoff⟩ := hs
  have hass : x ≥ 0 ∧ wrapInt (x + w) ≤ s._screenW ∧ y ≥ 0 ∧ wrapInt (y + h) ≤ s._screenH := by
    rw [wrapInt_eq (x + w) (by omega) (by omega), wrapInt_eq (y + h) (by omega) (by omega)]
    exact ⟨hx, hxw, hy, hyh⟩
  simp only [copyRect, fillRect, if_pos hass,
    fillRectLoop_eq_copyRectLoop s x w color h.toNat y 0 s._offscreenBase]
  by_cases hh : 0 ≤ h
  · have hk : ((h.toNat : Nat) : Int) = h := Int.toNat_of_nonneg hh
    exact ⟨(copyRectLoop_spec s x w buf pitch hW0 hW31 hx hw hxw hoff
        h.toNat y 0 s._offscreenBase hy (by omega) hsz).1,
      (copyRectLoop_spec s x w (fun _ => color) 0 hW0 hW31 hx hw hxw hoff
        h.toNat y 0 s._offscreenBase hy (by omega) hsz).1⟩
  · have hk : h.toNat = 0 := by omega
    rw [hk]
    exact ⟨rfl, rfl⟩

/-- A witness of C16 as amended: a 2 by 2 rectangle at `(1, 0)` of a 4 by 2
screen; `copyRect` and `fillRect` each write the four bytes at offsets 8, 9,
12 and 13 of the 24-byte allocation. -/
theorem rect_writes_inside_allocation_witness :
    (demoSystem 4 2 rampBuf 9).wf ∧ (1 : Int) ≥ 0 ∧ (0 : Int) ≥ 0 ∧ (2 : Int) ≥ 0 ∧
    (-2 ^ 31 : Int) ≤ 2 ∧
    (1 : Int) + 2 ≤ (demoSystem 4 2 rampBuf 9)._screenW ∧
    (0 : Int) + 2 ≤ (demoSystem 4 2 rampBuf 9)._screenH ∧
    ((copyRect (demoSystem 4 2 rampBuf 9) 1 0 2 2 rampBuf 5).1 = Status.ok ∧
    (fillRect (demoSystem 4 2 rampBuf 9) 1 0 2 2 200).1 = Status.ok) ∧
    (fillRect (demoSystem 4 2 rampBuf 9) 1 0 2 2 200).2._offscreenBase.data 8 = 200 ∧
    (fillRect (demoSystem 4 2 rampBuf 9) 1 0 2 2 200).2._offscreenBase.data 13 = 200 ∧
    (demoSystem 4 2 rampBuf 9)._offscreenBase.data 8 = 9 ∧
    (demoSystem 4 2 rampBuf 9)._offscreenBase.size = 24 :=
  ⟨by decide, by decide, by decide, by decide, by decide, by decide, by decide,
    rect_writes_inside_allocation (demoSystem 4 2 rampBuf 9) (by decide) 1 0 2 2 rampBuf 5 200
      (by decide) (by decide) (by decide) (by decide) (by decide) (by decide),
    by decide, by decide, by decide, by decide⟩

/-- C18, the code at failing inputs, all with an even `W`, a surface of
`W * H` bytes and pitch `W`, `|dx| < W` and `dy = 0`.  On a 4 by 2 screen with
`dx = -1`, `clearScreen` is called with `x = w = 4`, in 16-bit units: its first
`memset` starts at byte 8, the end of the 8-byte surface.  With `dx = 3` the
second `memset` covers bytes 4 to 9.  On a 4 by 1 screen with `dx = 1` the
`memmove` of 3 bytes starts at byte 2 of the 4-byte surface.  Each call ends on
the memory fault. -/
theorem updateScreen_writes_outside_surface :
    (shakeScreen (demoSystem 4 2 rampBuf 9) (-1) 0).wf ∧
    (shakeScreen (demoSystem 4 2 rampBuf 9) (-1) 0).screenWf ∧
    (demoSystem 4 2 rampBuf 9)._screen.pixels.size = 8 ∧
    (memset (demoSystem 4 2 rampBuf 9)._screen.pixels (2 * (0 + (0 * 2 + 4) * 1)) 0
      (toSizeT 1 * 2 * 1 % sizeMod)).isNone = true ∧
    (updateScreen (shakeScreen (demoSystem 4 2 rampBuf 9) (-1) 0) false).1 = Status.fault ∧
    (updateScreen (shakeScreen (demoSystem 4 2 rampBuf 9) 3 0) false).1 = Status.fault ∧
    (shakeScreen (demoSystem 4 1 rampBuf 9) 1 0).wf ∧
    (shakeScreen (demoSystem 4 1 rampBuf 9) 1 0).screenWf ∧
    (updateScreen (shakeScreen (demoSystem 4 1 rampBuf 9) 1 0) false).1 = Status.fault := by
  refine ⟨by decide, by decide, by decide, by decide, by decide, by decide, by decide,
    by decide, by decide⟩
/-! ## Gamma -/

/-- `setPalette` neither reads nor writes the gamma table. -/
theorem setPalette_gammaLut (s : System_SDL) (lut : Int → Byte) (pal : Int → Byte)
    (n depth : Int) :
    setPalette { s with _gammaLut := lut } pal n depth =
      ((setPalette s pal n depth).1, { (setPalette s pal n depth).2 with _gammaLut := lut }) := by
  unfold setPalette
  by_cases h1 : ¬ n ≤ 256
  · simp only [if_pos h1]
  · simp only [if_neg h1]
    by_cases h2 : ¬ depth ≤ 8
    · simp only [if_pos h2]
    · simp only [if_neg h2]
      cases (setPaletteLoop pal (8 - depth) depth n.toNat 0 s._pal).1 <;> rfl

/-- `updateScreen` neither reads nor writes the gamma table. -/
theorem updateScreen_gammaLut (s : System_SDL) (lut : Int → Byte) (drawWidescreen : Bool) :
    updateScreen { s with _gammaLut := lut } drawWidescreen =
      ((updateScreen s drawWidescreen).1,
        { (updateScreen s drawWidescreen).2 with _gammaLut := lut }) := by
  have hv : shakeVertical { s with _gammaLut := lut } ((s._screen.pitch / 2 : Nat) : Int)
      s._screenW
      { pixels := s._screen.pixels, dst := 0, src := s._offscreen, w := s._screenW,
        h := s._screenH }
      = shakeVertical s ((s._screen.pitch / 2 : Nat) : Int) s._screenW
      { pixels := s._screen.pixels, dst := 0, src := s._offscreen, w := s._screenW,
        h := s._screenH } := rfl
  have hh : ∀ v, shakeHorizontal { s with _gammaLut := lut } ((s._screen.pitch / 2 : Nat) : Int) v
      = shakeHorizontal s ((s._screen.pitch / 2 : Nat) : Int) v := fun _ => rfl
  unfold updateScreen
  simp only [hv, hh]
  rcases shakeVertical s ((s._screen.pitch / 2 : Nat) : Int) s._screenW
    { pixels := s._screen.pixels, dst := 0, src := s._offscreen, w := s._screenW,
      h := s._screenH } with ⟨st1, v1⟩
  cases st1
  · simp only
    rcases shakeHorizontal s ((s._screen.pitch / 2 : Nat) : Int) v1 with ⟨st2, v2⟩
    cases st2
    · simp only
      cases memmove v2.pixels (2 * v2.dst) s._offscreenBase v2.src (toSizeT (v2.w * v2.h * 1))
        <;> rfl
    · rfl
    · rfl
  · rfl
  · rfl

/-- C20. Gamma does not influence what is stored or presented: `setGamma`
changes only the gamma table, and for any two gamma values the outcome and the
palette stored by `setPalette`, and the outcome and the surface (pixels and
colors) produced by `updateScreen`, are the same in the two runs; both
operations give what they give without `setGamma`, the gamma table apart. -/
theorem gamma_does_not_interfere (s : System_SDL) (g1 g2 : Float) (pal : Int → Byte)
    (n depth : Int) (drawWidescreen : Bool) :
    { setGamma s g1 with _gammaLut := s._gammaLut } = s ∧
    (setPalette (setGamma s g1) pal n depth).1 = (setPalette (setGamma s g2) pal n depth).1 ∧
    (setPalette (setGamma s g1) pal n depth).2._pal
      = (setPalette (setGamma s g2) pal n depth).2._pal ∧
    (setPalette (setGamma s g1) pal n depth).2._screen
      = (setPalette (setGamma s g2) pal n depth).2._screen ∧
    (updateScreen (setGamma s g1) drawWidescreen).1
      = (updateScreen (setGamma s g2) drawWidescreen).1 ∧
    (updateScreen (setGamma s g1) drawWidescreen).2._screen
      = (updateScreen (setGamma s g2) drawWidescreen).2._screen ∧
    setPalette (setGamma s g1) pal n depth =
      ((setPalette s pal n depth).1,
        { (setPalette s pal n depth).2 with _gammaLut := (setGamma s g1)._gammaLut }) ∧
    updateScreen (setGamma s g1) drawWidescreen =
      ((updateScreen s drawWidescreen).1,
        { (updateScreen s drawWidescreen).2 with _gammaLut := (setGamma s g1)._gammaLut }) := by
  unfold setGamma
  generalize setGammaLoop g1 256 0 s._gammaLut = lut1
  generalize setGammaLoop g2 256 0 s._gammaLut = lut2
  have q1 := setPalette_gammaLut s lut1 pal n depth
  have q2 := setPalette_gammaLut s lut2 pal n depth
  have w1 := updateScreen_gammaLut s lut1 drawWidescreen
  have w2 := updateScreen_gammaLut s lut2 drawWidescreen
  refine ⟨rfl, ?_, ?_, ?_, ?_, ?_, q1, w1⟩
  · rw [q1, q2]
  · rw [q1, q2]
  · rw [q1, q2]
  · rw [w1, w2]
  · rw [w1, w2]

end Hode
